import Mathlib

/-
  Verification development for the midbel/toml repository.

  The repository sources contain two scanner generations and one
  parser/formatter generation:
  * `ModeScan` embeds the key/value-mode scanner of src/unnamed/part_018
    (third revision in that file, lines 1229-1854), the one exercised by
    src/scan_test.go.
  * `Toml` embeds the channel-based scanner of src/scan.go (first revision,
    lines 1-732), the document tree of src/unnamed/part_009, the parser of
    src/unnamed/part_015 and the formatter of src/format.go (lines 1-795).

  Go machine integers are modelled as `Int`/`Nat`; byte buffers are modelled
  as decoded rune sequences (`List Int` resp. `List Char`), so byte offsets
  become rune offsets (equivalent on valid UTF-8 input, which is the only
  input the theorems below use).  Loops are modelled with an explicit fuel
  parameter returning `Option`: `none` means the fuel ran out (or, where a
  comment says so, that the Go code would panic); all terminating runs are
  reproduced by a sufficiently large fuel.
-/

namespace ModeScan

/-- Positions as in the Token type of this scanner generation (Go ints). -/
structure Position where
  line : Int := 0
  column : Int := 0
deriving DecidableEq

/-- Token of the mode scanner: `Literal string; Type rune; Pos Position`. -/
structure Token where
  literal : String := ""
  type : Int := 0
  pos : Position := {}
deriving DecidableEq

/- Rune constants from the const block of the scanner file. -/
def carriage : Int := 13
def newline : Int := 10
def pound : Int := 35
def space : Int := 32
def tab : Int := 9
def equal : Int := 61
def dot : Int := 46
def comma : Int := 44
def lsquare : Int := 91
def rsquare : Int := 93
def lcurly : Int := 123
def rcurly : Int := 125
def plus : Int := 43
def minus : Int := 45
def underscore : Int := 95
def colon : Int := 58
def backslash : Int := 92

/-- Modelled from the spec: the token-kind constants of this scanner
revision (`EOF, Illegal, Newline, Comment, Ident, String, Integer, Float,
Bool, Date, Time, Datetime` in the spec's Token section) live in a token
file that is absent from src/; as in the sibling revisions they are
distinct negative runes.  `String`, `Bool` and `Float` are suffixed with
`Tok` because the plain names are taken by Lean. -/
def EOF : Int := -1
def Ident : Int := -2
def StringTok : Int := -3
def Integer : Int := -4
def FloatTok : Int := -5
def BoolTok : Int := -6
def Date : Int := -7
def DateTime : Int := -8
def Time : Int := -9
def Comment : Int := -10
def Illegal : Int := -11
def Newline : Int := -12

/- scanMode: scanKey = 0, scanValue = 1 (iota). -/
def scanKey : Int := 0
def scanValue : Int := 1

/-- Scanner state (`type Scanner struct`).  `s.char` holds the current
rune or the `EOF` sentinel.  The byte buffer is modelled as the decoded
rune sequence, with `pos`/`next` as rune offsets. -/
structure Scanner where
  buffer : List Int
  pos : Int := 0
  next : Int := 0
  mode : Int := 0
  stack : Nat := 0
  char : Int := 0
  keepComment : Bool := false
  keepMultiline : Bool := false
  line : Int := 0
  column : Int := 0
  rowlen : Int := 0
deriving DecidableEq

def runeError : Int := 0xFFFD

/-- utf8.DecodeRune at a rune offset: empty or out-of-range input gives
RuneError (the valid-UTF-8 model never produces a decode error midway). -/
def runeAt (buf : List Int) (i : Int) : Int :=
  if i < 0 then runeError else buf.getD i.toNat runeError

/-- utf8.RuneLen in the rune-offset model: 1 for every valid rune, -1 for
an invalid one (negative sentinels, surrogates). -/
def runeLen (r : Int) : Int :=
  if 0 ≤ r ∧ (r < 0xD800 ∨ (0xE000 ≤ r ∧ r < 0x110000)) then 1 else -1

/-- Go string conversion of one rune (invalid runes become U+FFFD). -/
def charOfRune (r : Int) : Char :=
  if 0 ≤ r ∧ (r < 0xD800 ∨ (0xE000 ≤ r ∧ r < 0x110000)) then
    Char.ofNat r.toNat
  else
    Char.ofNat 0xFFFD

def strOfRunes (rs : List Int) : String :=
  String.mk (rs.map charOfRune)

/-- Slice `s.buffer[a:b]` (Go panics when out of range; the model clamps,
and no theorem below depends on an out-of-range slice). -/
def sliceRunes (buf : List Int) (a b : Int) : List Int :=
  (buf.take b.toNat).drop a.toNat

/- Character classes (bottom of the scanner file). -/
def isDigit (r : Int) : Bool := 48 ≤ r ∧ r ≤ 57
def isLetter (r : Int) : Bool := (97 ≤ r ∧ r ≤ 122) ∨ (65 ≤ r ∧ r ≤ 90)
def isAlpha (r : Int) : Bool := isDigit r ∨ isLetter r
def isIdent (r : Int) : Bool := isAlpha r ∨ r = minus ∨ r = underscore
def isSign (r : Int) : Bool := r = minus ∨ r = plus
def isQuote (r : Int) : Bool := r = 39 ∨ r = 34
def isComment (r : Int) : Bool := r = pound
def isBlank (r : Int) : Bool := r = space ∨ r = tab
def isNewline (r : Int) : Bool := r = newline
def isWhitespace (r : Int) : Bool := isBlank r ∨ isNewline r
def isDelim (r : Int) : Bool := r = rsquare ∨ r = rcurly ∨ r = comma
def isPunct (r : Int) : Bool :=
  r = equal ∨ r = dot ∨ r = lsquare ∨ r = rsquare ∨ r = rcurly ∨ r = lcurly ∨ r = comma
def isHexa (r : Int) : Bool :=
  isDigit r ∨ (65 ≤ r ∧ r ≤ 70) ∨ (97 ≤ r ∧ r ≤ 102) ∨ r = underscore
def isOctal (r : Int) : Bool := (48 ≤ r ∧ r ≤ 55) ∨ r = underscore
def isBinary (r : Int) : Bool := r = 48 ∨ r = 49 ∨ r = underscore

/-- Go `escapes` map of this revision: `\b \t \n \r \f \" \\`. -/
def escapes (r : Int) : Option Int :=
  if r = 98 then some 8
  else if r = 116 then some tab
  else if r = 110 then some newline
  else if r = 114 then some carriage
  else if r = 102 then some 12
  else if r = 34 then some 34
  else if r = backslash then some backslash
  else none

/-- Go `func (s *Scanner) readRune()`. -/
def readRune (s : Scanner) : Scanner :=
  if s.next ≥ (s.buffer.length : Int) then { s with char := EOF }
  else
    let r := runeAt s.buffer s.next
    let s := { s with char := r, pos := s.next, next := s.next + 1 }
    if s.char = newline then { s with line := s.line + 1, rowlen := s.column, column := 0 }
    else { s with column := s.column + 1 }

/-- Go `func (s *Scanner) unreadRune()`. -/
def unreadRune (s : Scanner) : Scanner :=
  if s.next ≤ 0 ∨ s.char = 0 then s
  else
    let s :=
      if s.char = newline then { s with line := s.line - 1, column := s.rowlen }
      else { s with column := s.column - 1 }
    let s := { s with next := s.pos, pos := s.pos - runeLen s.char }
    { s with char := runeAt s.buffer s.pos }

/-- Go `func (s *Scanner) peekRune()`. -/
def peekRune (s : Scanner) : Int :=
  if s.next ≥ (s.buffer.length : Int) then EOF else runeAt s.buffer s.next

/-- Go `func (s *Scanner) readRuneN(n int) int` (the returned count is unused
by the callers that matter and is dropped). -/
def readRuneN : Nat → Scanner → Scanner
  | 0, s => s
  | n + 1, s => if s.char = EOF then s else readRuneN n (readRune s)

/-- Go `uint` decrement with wrap-around (the scanner's nesting counter). -/
def uintDec (n : Nat) : Nat := if n = 0 then 18446744073709551615 else n - 1

/-- Go `func (s *Scanner) switchMode()`. -/
def switchMode (s : Scanner) : Scanner :=
  if isNewline s.char ∧ s.mode = scanValue ∧ s.stack = 0 then { s with mode := scanKey }
  else if s.mode = scanValue ∧ (s.char = lcurly ∨ s.char = lsquare) then
    { s with stack := s.stack + 1 }
  else if s.mode = scanValue ∧ (s.char = rcurly ∨ s.char = rsquare) then
    { s with stack := uintDec s.stack }
  else if s.mode = scanKey ∧ s.char = equal then { s with mode := scanValue }
  else s

/-- Go `func (s *Scanner) skipWith(is func(rune) bool) int` (count dropped). -/
def skipWith (is : Int → Bool) : Nat → Scanner → Option Scanner
  | 0, _ => none
  | f + 1, s => if is s.char then skipWith is f (readRune s) else some s

def skipBlank (f : Nat) (s : Scanner) : Option Scanner :=
  skipWith isBlank f s

/-- Go `func acceptBase(r rune) func(rune) bool`. -/
def acceptBase (r : Int) : Option (Int → Bool) :=
  if r = 120 then some isHexa
  else if r = 111 then some isOctal
  else if r = 98 then some isBinary
  else none

/-- Loop of `scanMillis` (offset starts at 1 after the initial readRune). -/
def scanMillisLoop : Nat → Int → Scanner → Option (Int × Scanner)
  | 0, _, _ => none
  | f + 1, off, s =>
    if isDigit s.char then scanMillisLoop f (off + 1) (readRune s) else some (off, s)

/-- Go `func (s *Scanner) scanMillis(t *Token) int`. -/
def scanMillis (f : Nat) (t : Token) (s : Scanner) : Option (Token × Scanner) := do
  let s := readRune s
  let (off, s) ← scanMillisLoop f 1 s
  some ((if off < 3 then { t with type := Illegal } else t), s)

/-- Go `func (s *Scanner) scanTimezone(t *Token) int`. -/
def scanTimezone (t : Token) (s : Scanner) : Token × Scanner :=
  let s := readRuneN 3 s
  if s.char ≠ colon then ({ t with type := Illegal }, s)
  else (t, readRuneN 2 s)

/-- Go `func (s *Scanner) scanTime(t *Token) int`. -/
def scanTime (f : Nat) (t : Token) (s : Scanner) : Option (Token × Scanner) :=
  let t := { t with type := Time }
  let s1 := if s.char ≠ colon then readRuneN 3 s else s
  if s.char ≠ colon ∧ s1.char ≠ colon then some ({ t with type := Illegal }, s1)
  else
    let s2 := readRuneN 3 s1
    if s2.char ≠ colon then some ({ t with type := Illegal }, s2)
    else
      let s3 := readRuneN 3 s2
      do
        let (t, s4) ← if s3.char = dot then scanMillis f t s3 else some (t, s3)
        let s5 :=
          if isNewline s4.char ∨ isPunct s4.char ∨ s4.char = EOF then unreadRune s4 else s4
        some (t, s5)

/-- Go `func (s *Scanner) scanDate(t *Token) int` (84 = 'T', 90 = 'Z'). -/
def scanDate (f : Nat) (t : Token) (s : Scanner) : Option (Token × Scanner) :=
  let t := { t with type := Date }
  let s := readRuneN 3 s
  if s.char ≠ minus then some ({ t with type := Illegal }, s)
  else
    let s := readRuneN 3 s
    if s.char = 84 ∨ s.char = space then do
      let (t, s) ← scanTime f t s
      let (t, s) :=
        if s.char = 90 then (t, s)
        else if s.char = plus ∨ s.char = minus then scanTimezone t s
        else (t, s)
      some ((if t.type ≠ Illegal then { t with type := DateTime } else t), s)
    else if isNewline s.char ∨ isPunct s.char ∨ s.char = EOF then
      some ({ t with type := Date }, unreadRune s)
    else
      some ({ t with type := Illegal }, s)

/-- Loop of `scanExponent` (101 = 'e', 69 = 'E'). -/
def expLoop : Nat → Token → Int → Scanner → Option (Token × Scanner)
  | 0, _, _, _ => none
  | f + 1, t, prev, s =>
    if ¬ isDigit s.char ∧ s.char ≠ underscore then some ({ t with type := Illegal }, s)
    else if s.char = underscore ∧ ¬ (isDigit prev ∨ isDigit (peekRune s)) then
      some ({ t with type := Illegal }, s)
    else
      let prev := s.char
      let s := readRune s
      if isWhitespace s.char ∨ s.char = EOF ∨ isPunct s.char then some (t, unreadRune s)
      else expLoop f t prev s

/-- Go `func (s *Scanner) scanExponent(t *Token) int`. -/
def scanExponent (f : Nat) (t : Token) (s : Scanner) : Option (Token × Scanner) :=
  let t := { t with type := FloatTok }
  let s := readRune s
  let prev := s.char
  let s := if isSign s.char then readRune s else s
  expLoop f t prev s

/-- Loop of `scanFraction`. -/
def fracLoop : Nat → Token → Int → Scanner → Option (Token × Scanner)
  | 0, _, _, _ => none
  | f + 1, t, prev, s =>
    if isDigit s.char then fracLoop f t s.char (readRune s)
    else if s.char = underscore then
      if ¬ (isDigit (peekRune s) ∨ isDigit prev) then some ({ t with type := Illegal }, s)
      else fracLoop f t prev (readRune s)
    else if s.char = 101 ∨ s.char = 69 then do
      let (t, s) ← scanExponent f t s
      fracLoop f t prev (readRune s)
    else if isPunct s.char ∨ isWhitespace s.char ∨ s.char = EOF then
      some (t, unreadRune s)
    else
      fracLoop f { t with type := Illegal } prev (readRune s)

/-- Go `func (s *Scanner) scanFraction(t *Token) int`. -/
def scanFraction (f : Nat) (t : Token) (s : Scanner) : Option (Token × Scanner) :=
  let t := { t with type := FloatTok }
  let prev := s.char
  let s := readRune s
  fracLoop f t prev s

/-- Go `eol` closure of `scanNumber` / `scanNumberWith`. -/
def eolP (s : Scanner) : Bool := isDelim s.char ∨ isWhitespace s.char ∨ s.char = EOF

/-- Go `for s.char == '0' { zeros++; s.readRune() }`. -/
def zerosLoop : Nat → Nat → Scanner → Option (Nat × Scanner)
  | 0, _, _ => none
  | f + 1, zeros, s =>
    if s.char = 48 then zerosLoop f (zeros + 1) (readRune s) else some (zeros, s)

/-- Main loop of `scanNumber`; `prev` is the previous digit candidate. -/
def numLoop : Nat → Bool → Token → Int → Scanner → Option (Token × Scanner)
  | 0, _, _, _, _ => none
  | f + 1, signed, t, prev, s =>
    if t.type = Illegal ∨ eolP s then some (t, s)
    else if isDigit s.char then numLoop f signed t s.char (readRune s)
    else if s.char = underscore then
      let t := if ¬ (isDigit prev ∧ isDigit (peekRune s)) then { t with type := Illegal } else t
      numLoop f signed t prev (readRune s)
    else if s.char = dot then do
      let (t, s) ← scanFraction f t s
      numLoop f signed t prev (readRune s)
    else if s.char = 101 ∨ s.char = 69 then do
      let (t, s) ← scanExponent f t s
      numLoop f signed t prev (readRune s)
    else if s.char = minus then do
      let (t, s) ← scanDate f t s
      let t := if signed then { t with type := Illegal } else t
      numLoop f signed t prev (readRune s)
    else if s.char = colon then do
      let (t, s) ← scanTime f t s
      let t := if signed then { t with type := Illegal } else t
      numLoop f signed t prev (readRune s)
    else
      numLoop f signed { t with type := Illegal } prev (readRune s)

/-- Go `func (s *Scanner) scanNumber(t *Token, signed bool)`. -/
def scanNumber (f : Nat) (t : Token) (signed : Bool) (s : Scanner) :
    Option (Token × Scanner) := do
  let t := { t with type := Integer }
  let pos := s.pos
  let sign := s.char
  let (pos, s) :=
    if signed then
      let s := readRune s
      (if sign = plus then s.pos else pos, s)
    else (pos, s)
  let (zeros, s) ← zerosLoop f 0 s
  if eolP s then
    let s := unreadRune s
    let t := if zeros > 1 then { t with type := Illegal } else t
    some ({ t with literal := strOfRunes (sliceRunes s.buffer pos (s.pos + 1)) }, s)
  else do
    let (t, s) ← numLoop f signed t s.char s
    let t :=
      if (t.type = Integer ∧ zeros > 0) ∨ (t.type = FloatTok ∧ zeros > 1) then
        { t with type := Illegal }
      else t
    let s := unreadRune s
    some ({ t with literal := strOfRunes (sliceRunes s.buffer pos (s.pos + 1)) }, s)

/-- Loop of `scanNumberWith`. -/
def numWithLoop : Nat → (Int → Bool) → Token → Int → Scanner → Option (Token × Scanner)
  | 0, _, _, _, _ => none
  | f + 1, accept, t, prev, s =>
    if t.type = Illegal ∨ eolP s then some (t, s)
    else
      let t :=
        if s.char = underscore ∧ ¬ (accept prev ∧ accept (peekRune s)) then
          { t with type := Illegal }
        else t
      numWithLoop f accept t s.char (readRune s)

/-- Go `func (s *Scanner) scanNumberWith(t *Token, accept func(rune) bool)`:
note the unconditional `t.Type = Integer` after the loop. -/
def scanNumberWith (f : Nat) (t : Token) (accept : Int → Bool) (s : Scanner) :
    Option (Token × Scanner) := do
  let pos := s.pos
  let s := readRune (readRune s)
  let (t, s) ← numWithLoop f accept t s.char s
  let s := unreadRune s
  some ({ t with type := Integer, literal := strOfRunes (sliceRunes s.buffer pos (s.pos + 1)) }, s)

/-- Go `for !isNewline(s.char) { s.readRune(); offset += utf8.RuneLen(s.char) }`:
the comment loop.  It does not test for EOF. -/
def commentLoop : Nat → Int → Scanner → Option (Int × Scanner)
  | 0, _, _ => none
  | f + 1, off, s =>
    if isNewline s.char then some (off, s)
    else
      let s := readRune s
      commentLoop f (off + runeLen s.char) s

/-- Go `func (s *Scanner) scanComment(t *Token)`. -/
def scanComment (f : Nat) (t : Token) (s : Scanner) : Option (Token × Scanner) := do
  let t := { t with type := Comment }
  let s := readRune s
  let s ← skipBlank f s
  let pos := s.pos
  let (off, s) ← commentLoop f 0 s
  let s := unreadRune s
  some ({ t with literal := strOfRunes (sliceRunes s.buffer pos (pos + off)) }, s)

/-- utf8.ValidRune. -/
def validRune (r : Int) : Bool :=
  0 ≤ r ∧ (r < 0xD800 ∨ (0xE000 ≤ r ∧ r < 0x110000))

/-- Result of the string-body loop: `early` models the Go `return`
statements inside the loop, `done` normal loop exit on the closing quote. -/
inductive StrRes where
  | early (t : Token) (s : Scanner)
  | done (buf : String) (s : Scanner)

/-- Body loop of `scanString` (34 = '"'). -/
def strLoop : Nat → Int → Token → String → Scanner → Option StrRes
  | 0, _, _, _, _ => none
  | f + 1, quote, t, buf, s =>
    if s.char = quote then some (.done buf s)
    else if quote = 34 ∧ s.char = backslash then
      let s := readRune s
      if isNewline s.char then do
        let s ← skipWith isWhitespace f s
        strLoop f quote t buf s
      else
        match escapes s.char with
        | none => some (.early { t with type := Illegal } s)
        | some c =>
          let s := { s with char := c }
          if ¬ validRune s.char then some (.early { t with type := Illegal } s)
          else strLoop f quote t (buf.push (charOfRune s.char)) (readRune s)
    else if ¬ validRune s.char then some (.early { t with type := Illegal } s)
    else strLoop f quote t (buf.push (charOfRune s.char)) (readRune s)

/-- Code of `scanString` after the string body loop: assign the literal,
skip the two extra closing quotes of a multiline string, and demand the
final quote. -/
def scanStringTail (f : Nat) (quote : Int) (t : Token) (multi : Bool) (s : Scanner) :
    Option (Token × Scanner) := do
  match ← strLoop f quote t "" s with
  | .early t s => some (t, s)
  | .done buf s =>
    let t := { t with literal := buf }
    let s := if multi then readRune (readRune s) else s
    if s.char ≠ quote then some ({ t with type := Illegal }, s)
    else some (t, s)

/-- Go `func (s *Scanner) scanString(t *Token)` (the part after the
multiline-prefix detection is `scanStringTail`). -/
def scanString (f : Nat) (t : Token) (s : Scanner) : Option (Token × Scanner) := do
  let t := { t with type := StringTok }
  let quote := s.char
  let s := readRune s
  let (multi, early, s) ←
    if s.char = quote then
      let s := readRune s
      if ¬ isQuote s.char then some (false, true, unreadRune s)
      else if s.char = quote then
        let s := readRune s
        let s := if isNewline s.char then readRune s else s
        some (true, false, s)
      else some (false, false, s)
    else some (false, false, s)
  if early then some (t, s)
  else scanStringTail f quote t multi s

/-- Loop of `scanIdent`. -/
def identLoop : Nat → Int → Scanner → Option (Int × Scanner)
  | 0, _, _ => none
  | f + 1, off, s =>
    if isIdent s.char then
      let s := readRune s
      identLoop f (off + runeLen s.char) s
    else some (off, s)

/-- Go `func (s *Scanner) scanIdent(t *Token)`. -/
def scanIdent (f : Nat) (t : Token) (s : Scanner) : Option (Token × Scanner) := do
  let t := { t with type := Ident }
  let pos := s.pos
  let (off, s) ← identLoop f 0 s
  let lit := strOfRunes (sliceRunes s.buffer pos (pos + off))
  let ty :=
    if lit = "true" ∨ lit = "false" then BoolTok
    else if lit = "inf" ∨ lit = "nan" then FloatTok
    else t.type
  let ty := if s.mode = scanKey then Ident else ty
  some ({ t with literal := lit, type := ty }, unreadRune s)

/-- Go `func (s *Scanner) Scan() Token` (48 = '0'). -/
def Scan : Nat → Scanner → Option (Token × Scanner)
  | 0, _ => none
  | f + 1, s =>
    if s.char = EOF then some ({ type := EOF }, s)
    else do
      let s ← skipBlank f s
      let pos : Position := { line := s.line, column := s.column }
      let s := switchMode s
      if isComment s.char then do
        let (t, s) ← scanComment f {} s
        let s := readRune s
        if ¬ s.keepComment then Scan f s
        else
          let s := readRune s
          some ({ t with pos := pos }, readRune s)
      else if isNewline s.char then
        if ¬ s.keepMultiline ∧ peekRune s = newline then Scan f (readRune s)
        else some ({ literal := "", type := Newline, pos := pos }, readRune s)
      else do
        let (t, s) ←
          if isLetter s.char ∨ (s.mode = scanKey ∧ isDigit s.char) then scanIdent f {} s
          else if (s.mode = scanValue ∧ isDigit s.char) ∨ isSign s.char then
            match acceptBase (peekRune s) with
            | some accept =>
              if s.char = 48 then scanNumberWith f {} accept s
              else scanNumber f {} (isSign s.char) s
            | none => scanNumber f {} (isSign s.char) s
          else if isQuote s.char then scanString f {} s
          else if isPunct s.char then some (({ type := s.char } : Token), s)
          else some (({ type := Illegal } : Token), s)
        some ({ t with pos := pos }, readRune s)

/-- Go `bytes.ReplaceAll(buf, "\r\n", "\n")`. -/
def replCRLF : List Int → List Int
  | [] => []
  | 13 :: 10 :: rest => 10 :: replCRLF rest
  | c :: rest => c :: replCRLF rest

/-- Go `func Scan(r io.Reader) (*Scanner, error)`: build the scanner state,
read the first rune, skip leading newlines. -/
def initScanner (f : Nat) (doc : String) : Option Scanner :=
  let s : Scanner :=
    { buffer := replCRLF (doc.data.map (fun c => (c.toNat : Int))),
      line := 1, column := 0, mode := scanKey }
  skipWith isNewline f (readRune s)

/-- Pull tokens until the first EOF token (the consumer loop of
scan_test.go). -/
def scanAll : Nat → Scanner → Option (List Token)
  | 0, _ => none
  | f + 1, s => do
    let (t, s') ← Scan (f + 1) s
    if t.type = EOF then some []
    else do
      let ts ← scanAll f s'
      some (t :: ts)

/-- The token-kind stream of a document. -/
def tokenTypes (f : Nat) (doc : String) : Option (List Int) := do
  let s ← initScanner f doc
  let ts ← scanAll f s
  some (ts.map Token.type)

/-- The token-literal stream of a document. -/
def tokenLits (f : Nat) (doc : String) : Option (List String) := do
  let s ← initScanner f doc
  let ts ← scanAll f s
  some (ts.map Token.literal)

/-- Scanner state produced by `Scan(strings.NewReader("# comment"))`: the
first rune `#` has been read, no leading newline to skip. -/
def commentDocState : Scanner :=
  { buffer := [35, 32, 99, 111, 109, 109, 101, 110, 116], pos := 0, next := 1,
    mode := 0, stack := 0, char := 35, keepComment := false, keepMultiline := false,
    line := 1, column := 1, rowlen := 0 }

/-- Type set maintained by the scanNumber loop: without a sign the date
kinds may appear, with a sign they never do. -/
def numTy (signed : Bool) (x : Int) : Prop :=
  x = Integer ∨ x = FloatTok ∨ x = Illegal ∨
    (signed = false ∧ (x = Date ∨ x = DateTime ∨ x = Time))

/-- The scanner state after the input is exhausted. -/
def eofState : Scanner :=
  { buffer := [], pos := 0, next := 0, mode := 0, stack := 0, char := EOF,
    keepComment := false, keepMultiline := false, line := 1, column := 0, rowlen := 0 }

/-- Scanner state in value mode at the start of the input `-1\n`, used to
instantiate the signed-`scanNumber` theorem. -/
def signedNumState : Scanner :=
  { buffer := [45, 49, 10], pos := 0, next := 1, mode := 1, stack := 0, char := 45,
    keepComment := false, keepMultiline := false, line := 1, column := 1, rowlen := 0 }

end ModeScan

namespace Toml

/-- Go `type Position struct { Line, Column int }` (src/token.go). -/
structure Position where
  line : Int := 0
  column : Int := 0
deriving DecidableEq

def Position.IsValid (p : Position) : Bool := 1 ≤ p.line

def Position.IsZero (p : Position) : Bool :=
  if p.IsValid then false else p.line = 0 ∧ p.column = 0

/-- Modelled from the spec: `Position.Less` is called by `listOptions` /
`listTables` (src/unnamed/part_009) but is not defined in any file under
src/; per the spec nodes are "re-sorted by declaration line for emission",
so `Less` is the (line, column) lexicographic order. -/
def Position.Less (p q : Position) : Bool :=
  p.line < q.line ∨ (p.line = q.line ∧ p.column < q.column)

/- Token type constants of src/token.go: `TokEOF rune = -(iota) + 1` puts
TokEOF at 1, TokIdent at 0 and the rest at decreasing negatives. -/
def TokEOF : Int := 1
def TokIdent : Int := 0
def TokString : Int := -1
def TokInteger : Int := -2
def TokFloat : Int := -3
def TokBool : Int := -4
def TokDate : Int := -5
def TokDatetime : Int := -6
def TokTime : Int := -7
def TokComment : Int := -8
def TokIllegal : Int := -9
def TokBegArray : Int := -10
def TokEndArray : Int := -11
def TokBegInline : Int := -12
def TokEndInline : Int := -13
def TokBegRegularTable : Int := -14
def TokEndRegularTable : Int := -15
def TokBegArrayTable : Int := -16
def TokEndArrayTable : Int := -17
def TokEqual : Int := -18
def TokDot : Int := -19
def TokComma : Int := -20
def TokNewline : Int := -21

/-- The scanner of src/scan.go emits `TokNL`; the token file revision in
src/ names the same constant `TokNewline`. -/
def TokNL : Int := TokNewline

/-- Modelled from the spec: the string-flavour kinds
`String(Basic|BasicMulti|Literal|LiteralMulti)` used by src/format.go are
defined in a token-file revision absent from src/; they are further fresh
constants.  The embedded scanner only ever emits `TokString`. -/
def TokBasic : Int := -22
def TokBasicMulti : Int := -23
def TokLiteral : Int := -24
def TokLiteralMulti : Int := -25

/-- Go `constants` map of src/token.go. -/
def constants (str : String) : Option Int :=
  if str = "true" ∨ str = "false" then some TokBool
  else if str = "inf" ∨ str = "+inf" ∨ str = "-inf" then some TokFloat
  else if str = "nan" ∨ str = "+nan" ∨ str = "-nan" then some TokFloat
  else none

/-- Go `type Token struct { Literal string; Type rune; Pos Position }`.  The
`raw` field belongs to the newer token revision read by src/format.go
(spec: `raw?`); the embedded scanner leaves it empty. -/
structure Token where
  literal : String := ""
  type : Int := 0
  pos : Position := {}
  raw : String := ""
deriving DecidableEq

def Token.isZero (t : Token) : Bool := t.literal = "" ∧ t.type = 0

def Token.isComment (t : Token) : Bool := t.type = TokComment

def Token.isTable (t : Token) : Bool :=
  t.type = TokBegRegularTable ∨ t.type = TokBegArrayTable

def Token.IsIdent (t : Token) : Bool :=
  t.type = TokIdent ∨ t.type = TokString ∨ t.type = TokInteger

def Token.isValue (t : Token) : Bool :=
  t.type = TokString ∨ t.type = TokInteger ∨ t.type = TokFloat ∨ t.type = TokBool ∨
    t.type = TokDate ∨ t.type = TokTime ∨ t.type = TokDatetime

/-- Go `isNL` as used by the parser (src/unnamed/part_015): the newline
token check (its token-file revision is absent from src/). -/
def Token.isNL (t : Token) : Bool := t.type = TokNL

/-- Go `isString` as used by src/format.go: one of the four string
flavours of the newer token revision.  The embedded scanner only emits
`TokString`, for which this is false — exactly as the mixed revisions
under src/ would behave. -/
def Token.isString (t : Token) : Bool :=
  t.type = TokBasic ∨ t.type = TokBasicMulti ∨ t.type = TokLiteral ∨ t.type = TokLiteralMulti

/- Rune constants of src/scan.go, as characters. -/
def carriage : Char := '\x0D'
def newline : Char := '\x0A'
def pound : Char := '#'
def space : Char := ' '
def tab : Char := '\x09'
def equal : Char := '='
def dot : Char := '.'
def comma : Char := ','
def lsquare : Char := '['
def rsquare : Char := ']'
def lcurly : Char := '{'
def rcurly : Char := '}'
def plus : Char := '+'
def minus : Char := '-'
def underscore : Char := '_'
def colon : Char := ':'
def backslash : Char := '\\'
def squote : Char := '\''
def dquote : Char := '"'
def backspace : Char := '\x08'
def formfeed : Char := '\x0C'
def zero : Char := '0'
def hex : Char := 'x'
def oct : Char := 'o'
def bin : Char := 'b'

def nulChar : Char := '\x00'
def runeErrorChar : Char := '�'

/-- Go `escapes` map of src/scan.go. -/
def escapes (r : Char) : Option Char :=
  if r = backslash then some backslash
  else if r = dquote then some dquote
  else if r = 'n' then some newline
  else if r = 't' then some tab
  else if r = 'f' then some formfeed
  else if r = 'b' then some backspace
  else if r = 'r' then some carriage
  else none

/- Character classes of src/scan.go. -/
def isHexa (r : Char) : Bool := ('0' ≤ r ∧ r ≤ '9') ∨ ('a' ≤ r ∧ r ≤ 'f') ∨ ('A' ≤ r ∧ r ≤ 'F')
def isOctal (r : Char) : Bool := '0' ≤ r ∧ r ≤ '7'
def isBinary (r : Char) : Bool := r = '0' ∨ r = '1'
def isDigit (r : Char) : Bool := '0' ≤ r ∧ r ≤ '9'
def isLetter (r : Char) : Bool := ('a' ≤ r ∧ r ≤ 'z') ∨ ('A' ≤ r ∧ r ≤ 'Z')
def isAlpha (r : Char) : Bool := isDigit r ∨ isLetter r ∨ r = minus ∨ r = underscore
def isSign (r : Char) : Bool := r = minus ∨ r = plus
def isQuote (r : Char) : Bool := r = squote ∨ r = dquote
def isComment (r : Char) : Bool := r = pound
def isBlank (r : Char) : Bool := r = space ∨ r = tab
def isNL (r : Char) : Bool := r = newline
def isEOF (r : Char) : Bool := r = nulChar ∨ r = runeErrorChar

/-- Scanner state of src/scan.go.  The byte buffer is the decoded rune
sequence (`input`), `pos`/`next` are rune offsets, `buf` the token-literal
buffer and `out` the tokens pushed onto the queue channel so far (most
recent first); the producer goroutine and the unbuffered channel are
modelled by running the scan loop to completion and handing the token
list to the consumer. -/
structure Scanner where
  pos : Int := 0
  next : Int := 0
  char : Char := nulChar
  input : List Char
  buf : String := ""
  line : Int := 0
  column : Int := 0
  cursor : Position := {}
  out : List Token := []
deriving DecidableEq

/-- utf8.DecodeRune of the suffix starting at rune offset `i` (RuneError
on an empty suffix; decode errors inside valid input do not arise). -/
def charAt (input : List Char) (i : Int) : Char :=
  if i < 0 then runeErrorChar else input.getD i.toNat runeErrorChar

/-- Go `func (s *Scanner) readRune()`: note the guard tests `s.pos`, and the
RuneError branch (end of input) leaves `pos = next = len` with the
RuneError rune as current character; `s.column++` runs even right after a
newline. -/
def readRune (s : Scanner) : Scanner :=
  if s.pos ≥ (s.input.length : Int) then { s with char := nulChar }
  else
    let (r, n) : Char × Int :=
      if s.next ≥ (s.input.length : Int) then (runeErrorChar, 0) else (charAt s.input s.next, 1)
    let s := { s with char := r, pos := s.next, next := s.next + n }
    let s := if s.char = newline then { s with line := s.line + 1, column := 0 } else s
    { s with column := s.column + 1 }

/-- Go `func (s *Scanner) nextRune() rune`. -/
def nextRune (s : Scanner) : Char :=
  charAt s.input s.next

/-- Go `func (s *Scanner) prevRune() rune`. -/
def prevRune (s : Scanner) : Char :=
  if s.pos ≤ 0 then runeErrorChar else charAt s.input (s.pos - 1)

def isDone (s : Scanner) : Bool :=
  s.pos ≥ (s.input.length : Int) ∨ isEOF s.char

/-- Loop of `skipN`: `for i := 0; (n <= 0 || i < n) && fn(s.char); i++`. -/
def skipNAux (fn : Char → Bool) : Nat → Int → Int → Scanner → Option Scanner
  | 0, _, _, _ => none
  | f + 1, n, i, s =>
    if (n ≤ 0 ∨ i < n) ∧ fn s.char then skipNAux fn f n (i + 1) (readRune s)
    else some s

/-- Go `func (s *Scanner) skipN(n int, fn func(rune) bool)`. -/
def skipN (fn : Char → Bool) (f : Nat) (n : Int) (s : Scanner) : Option Scanner :=
  skipNAux fn f n 0 s

/-- Go `func (s *Scanner) skip(fn func(rune) bool)`. -/
def skip (fn : Char → Bool) (f : Nat) (s : Scanner) : Option Scanner :=
  skipN fn f 0 s

def writeRune (s : Scanner) (c : Char) : Scanner :=
  { s with buf := s.buf.push c }

def backup (s : Scanner) : Scanner :=
  { s with cursor := { line := s.line, column := s.column } }

/-- Go `func (s *Scanner) emit(kind rune)`: push a token on the queue and
reset the literal buffer. -/
def emit (s : Scanner) (kind : Int) : Scanner :=
  { s with out := { literal := s.buf, type := kind, pos := s.cursor } :: s.out, buf := "" }

/-- Go string conversion of one rune value. -/
def charOfRune (r : Int) : Char :=
  if 0 ≤ r ∧ (r < 0xD800 ∨ (0xE000 ≤ r ∧ r < 0x110000)) then
    Char.ofNat r.toNat
  else
    Char.ofNat 0xFFFD

/-- Loop of `scanUnicodeEscape`.  The first component is false when the
loop returned RuneError early (bad hex digit).  Note the faithful source
bugs: the `a-f` and `A-F` cases compute `s.char - 'a'` / `s.char - 'A'`
without adding 10, and `offset` underflows below zero for `\U` escapes —
a negative shift panics in Go, modelled as `none`. -/
def ucLoop : Nat → Int → Int → Int → Scanner → Option (Bool × Int × Scanner)
  | 0, ch, _, _, s => some (true, ch, s)
  | i + 1, ch, offset, step, s =>
    let s := readRune s
    let x : Option Int :=
      if '0' ≤ s.char ∧ s.char ≤ '9' then some ((s.char.toNat : Int) - 48)
      else if 'a' ≤ s.char ∧ s.char ≤ 'f' then some ((s.char.toNat : Int) - 97)
      else if 'A' ≤ s.char ∧ s.char ≤ 'F' then some ((s.char.toNat : Int) - 65)
      else none
    match x with
    | none => some (false, 0xFFFD, s)
    | some x =>
      if offset < 0 then none
      else ucLoop i (Int.lor ch (x * 2 ^ offset.toNat)) (offset - step) step s

/-- Go `func scanUnicodeEscape(s *Scanner) rune`. -/
def scanUnicodeEscape (s : Scanner) : Option (Int × Scanner) :=
  let (step, offset) : Int × Int := if s.char = 'u' then (4, 12) else (8, 28)
  do
    let (done, ch, s) ← ucLoop step.toNat 0 offset step s
    if done then some (ch, readRune s) else some (ch, s)

/-- Go `func scanEscape(s *Scanner, multi bool) rune`: 0 means "line-joining
escape, continue", 0xFFFD is RuneError (invalid escape). -/
def scanEscape (f : Nat) (s : Scanner) (multi : Bool) : Option (Int × Scanner) := do
  let s := readRune s
  if multi ∧ s.char = newline then do
    let s := readRune s
    let s ← skip isBlank f s
    some (0, s)
  else if s.char = 'u' ∨ s.char = 'U' then scanUnicodeEscape s
  else
    match escapes s.char with
    | some c => some ((c.toNat : Int), readRune s)
    | none => some (0xFFFD, s)

/-- One iteration of the `scanString` loop body: `.inl r` means the loop
returned (the Bool is true when an Illegal token was already emitted for
an invalid escape), `.inr s` continues the loop on `s`. -/
def scanStringIter (f : Nat) (quote : Char) (multi : Bool) (s : Scanner) :
    Option ((Scanner × Bool) ⊕ Scanner) :=
  let bodyTail : Scanner → Option ((Scanner × Bool) ⊕ Scanner) := fun s =>
    if quote = dquote ∧ s.char = backslash then do
      let (c, s) ← scanEscape f s multi
      if c = 0xFFFD then some (.inl (emit s TokIllegal, true))
      else if c = 0 then some (.inr s)
      else some (.inr (writeRune s (charOfRune c)))
    else
      some (.inr (readRune (writeRune s s.char)))
  if s.char = quote then
    let s := readRune s
    if ¬ multi then some (.inl (s, false))
    else if s.char = quote ∧ nextRune s = quote then do
      let s ← skipN isQuote f 2 s
      some (.inl (s, false))
    else bodyTail (writeRune s quote)
  else bodyTail s

/-- Body loop of `scanString` (`for !s.isDone()`). -/
def scanStringLoop : Nat → Char → Bool → Scanner → Option (Scanner × Bool)
  | 0, _, _, _ => none
  | f + 1, quote, multi, s =>
    if isDone s then some (s, false)
    else
      match scanStringIter f quote multi s with
      | none => none
      | some (.inl r) => some r
      | some (.inr s) => scanStringLoop f quote multi s

/-- Go `func scanString(s *Scanner)`. -/
def scanString (f : Nat) (s : Scanner) : Option Scanner := do
  let quote := s.char
  let s := readRune s
  let multi := s.char = quote ∧ nextRune s = quote
  let s ←
    if multi then do
      let s ← skipN isQuote f 2 s
      skip (fun r => isBlank r ∨ isNL r) f s
    else some s
  let (s, early) ← scanStringLoop f quote multi s
  if early then some s
  else
    let kind := if isDone s then TokIllegal else TokString
    some (emit s kind)

/-- Loop of `scanWhile`. -/
def scanWhileLoop (accept : Char → Bool) : Nat → Scanner → Option Scanner
  | 0, _ => none
  | f + 1, s =>
    if ¬ isDone s ∧ accept s.char then scanWhileLoop accept f (readRune (writeRune s s.char))
    else some s

/-- Go `func scanWhile(s *Scanner, kind rune, accept func(r rune) bool)`. -/
def scanWhile (f : Nat) (kind : Int) (accept : Char → Bool) (s : Scanner) : Option Scanner := do
  let s ← scanWhileLoop accept f s
  some (emit s kind)

/-- Go `func scanIdent(s *Scanner)`. -/
def scanIdent (f : Nat) (s : Scanner) : Option Scanner :=
  scanWhile f TokIdent isAlpha s

/-- Go `func scanDigit(s *Scanner)` (digits in key context become idents). -/
def scanDigit (f : Nat) (s : Scanner) : Option Scanner :=
  scanWhile f TokIdent isDigit s

/-- Go `func scanComment(s *Scanner)`. -/
def scanComment (f : Nat) (s : Scanner) : Option Scanner := do
  let s := readRune s
  let s ← skip isBlank f s
  scanWhile f TokComment (fun r => ¬ isNL r) s

/-- Go `func scanIllegal(s *Scanner)`. -/
def scanIllegal (f : Nat) (s : Scanner) : Option Scanner :=
  scanWhile f TokIllegal (fun r => ¬ isNL r) s

/-- Go `func scanConstant(s *Scanner)`. -/
def scanConstant (f : Nat) (s : Scanner) : Option Scanner := do
  let s := if isSign s.char then readRune (writeRune s s.char) else s
  let s ← scanWhileLoop isLetter f s
  let kind := (constants s.buf).getD TokIllegal
  some (emit s kind)

/-- Loop of `scanBase`; the Bool is true when an Illegal token was already
emitted (bad underscore placement). -/
def scanBaseLoop (accept : Char → Bool) : Nat → Scanner → Option (Scanner × Bool)
  | 0, _ => none
  | f + 1, s =>
    if isDone s then some (s, false)
    else
      let step : Option Scanner :=
        if s.char = underscore then
          if ¬ (accept (prevRune s) ∧ accept (nextRune s)) then none
          else some (readRune s)
        else some s
      match step with
      | none => some (emit s TokIllegal, true)
      | some s =>
        if ¬ accept s.char then some (s, false)
        else scanBaseLoop accept f (readRune (writeRune s s.char))

/-- Go `func scanBase(s *Scanner)`. -/
def scanBase (f : Nat) (s : Scanner) : Option Scanner :=
  let s := readRune (writeRune s s.char)
  let accept : Option (Char → Bool) :=
    if s.char = hex then some isHexa
    else if s.char = oct then some isOctal
    else if s.char = bin then some isBinary
    else none
  match accept with
  | none => some (emit s TokIllegal)
  | some accept => do
    let s := readRune (writeRune s s.char)
    let (s, early) ← scanBaseLoop accept f s
    if early then some s else some (emit s TokInteger)

/-- The `scan` closure of `scanDate`: a `-` followed by two digits. -/
def dateSeg (s : Scanner) : Bool × Scanner :=
  if s.char ≠ minus then (false, s)
  else
    let s := readRune (writeRune s s.char)
    if ¬ isDigit s.char then (false, s)
    else
      let s := readRune (writeRune s s.char)
      if ¬ isDigit s.char then (false, s)
      else (true, readRune (writeRune s s.char))

/-- The `scan` closure of `scanTime`: current rune then two digits (the
leading rune must be a colon when `check` holds). -/
def timeSeg (check : Bool) (s : Scanner) : Bool × Scanner :=
  if check ∧ s.char ≠ colon then (false, s)
  else
    let s := readRune (writeRune s s.char)
    if ¬ isDigit s.char then (false, s)
    else
      let s := readRune (writeRune s s.char)
      if ¬ isDigit s.char then (false, s)
      else (true, readRune (writeRune s s.char))

/-- Go `for isDigit(s.char) { s.writeRune(s.char); s.readRune() }`. -/
def digitsLoop : Nat → Scanner → Option Scanner
  | 0, _ => none
  | f + 1, s =>
    if isDigit s.char then digitsLoop f (readRune (writeRune s s.char)) else some s

/-- Go `func scanTime(s *Scanner) rune`. -/
def scanTime (f : Nat) (s : Scanner) : Option (Int × Scanner) :=
  let (_, s) := if s.char ≠ colon then timeSeg false s else (true, s)
  let (ok1, s) := timeSeg true s
  if ¬ ok1 then some (TokIllegal, s)
  else
    let (ok2, s) := timeSeg true s
    if ¬ ok2 then some (TokIllegal, s)
    else if s.char = dot then do
      let s := readRune (writeRune s s.char)
      let n : Int := s.buf.length
      let s ← digitsLoop f s
      if (s.buf.length : Int) - n > 9 then some (TokIllegal, s)
      else some (TokTime, s)
    else some (TokTime, s)

/-- The two-digit `scan` closure of `scanTimezone`. -/
def tzSeg (s : Scanner) : Bool × Scanner :=
  if ¬ isDigit s.char then (false, s)
  else
    let s := readRune (writeRune s s.char)
    if ¬ isDigit s.char then (false, s)
    else (true, readRune (writeRune s s.char))

/-- Go `func scanTimezone(s *Scanner) rune`. -/
def scanTimezone (s : Scanner) : Int × Scanner :=
  if s.char = 'Z' then (TokDatetime, readRune (writeRune s s.char))
  else if s.char ≠ plus ∧ s.char ≠ minus then (TokDatetime, s)
  else
    let s := readRune (writeRune s s.char)
    let (ok, s) := tzSeg s
    if ¬ ok then (TokIllegal, s)
    else
      let s := writeRune s s.char
      if s.char ≠ colon then (TokIllegal, s)
      else
        let s := readRune s
        let (ok, s) := tzSeg s
        if ¬ ok then (TokIllegal, s) else (TokDatetime, s)

/-- Go `func scanDate(s *Scanner) rune` (84 = 'T'). -/
def scanDate (f : Nat) (s : Scanner) : Option (Int × Scanner) :=
  let (ok, s) := dateSeg s
  if ¬ ok then some (TokIllegal, s)
  else
    let (ok, s) := dateSeg s
    if ¬ ok then some (TokIllegal, s)
    else
      if (s.char = space ∨ s.char = 'T') ∧ isDigit (nextRune s) then do
        let s := readRune (writeRune s s.char)
        let (k, s) ← scanTime f s
        if k = TokIllegal then some (k, s)
        else
          let (k2, s) := scanTimezone s
          if k2 = TokIllegal then some (k2, s)
          else some (TokDatetime, s)
      else some (TokDate, s)

/-- Loop of `scanExponent`. -/
def expLoop : Nat → Scanner → Option (Int × Scanner)
  | 0, _ => none
  | f + 1, s =>
    if isDone s then some (TokFloat, s)
    else if s.char = underscore then
      if ¬ (isDigit (prevRune s) ∧ isDigit (nextRune s)) then some (TokIllegal, s)
      else expLoop f (readRune s)
    else if isDigit s.char then expLoop f (readRune (writeRune s s.char))
    else some (TokFloat, s)

/-- Go `func scanExponent(s *Scanner) rune`. -/
def scanExponent (f : Nat) (s : Scanner) : Option (Int × Scanner) :=
  let s := readRune (writeRune s s.char)
  let s := if isSign s.char then readRune (writeRune s s.char) else s
  expLoop f s

/-- Loop of `scanFraction`. -/
def fracLoop : Nat → Scanner → Option (Int × Scanner)
  | 0, _ => none
  | f + 1, s =>
    if isDone s then some (TokFloat, s)
    else if s.char = 'e' ∨ s.char = 'E' then scanExponent f s
    else if s.char = underscore then
      if ¬ (isDigit (prevRune s) ∧ isDigit (nextRune s)) then some (TokIllegal, s)
      else fracLoop f (readRune s)
    else if isDigit s.char then fracLoop f (readRune (writeRune s s.char))
    else some (TokFloat, s)

/-- Go `func scanFraction(s *Scanner) rune`. -/
def scanFraction (f : Nat) (s : Scanner) : Option (Int × Scanner) :=
  let s := readRune (writeRune s s.char)
  fracLoop f s

/-- Main loop of `scanDecimal`; `some kind` means "emit kind after the
loop", `none` means an Illegal token was already emitted. -/
def decLoop : Nat → Scanner → Option (Option Int × Scanner)
  | 0, _ => none
  | f + 1, s =>
    if isDone s then some (some TokInteger, s)
    else if s.char = minus then do
      let (k, s) ← scanDate f s
      some (some k, s)
    else if s.char = colon then do
      let (k, s) ← scanTime f s
      some (some k, s)
    else if s.char = underscore then
      if ¬ (isDigit (prevRune s) ∧ isDigit (nextRune s)) then some (none, emit s TokIllegal)
      else decLoop f (readRune s)
    else if s.char = dot then do
      let (k, s) ← scanFraction f s
      some (some k, s)
    else if s.char = 'e' ∨ s.char = 'E' then do
      let (k, s) ← scanExponent f s
      some (some k, s)
    else if isDigit s.char then decLoop f (readRune (writeRune s s.char))
    else some (some TokInteger, s)

/-- Go `func scanDecimal(s *Scanner)`. -/
def scanDecimal (f : Nat) (s : Scanner) : Option Scanner := do
  let s :=
    if isSign s.char then
      let s := if s.char = minus then writeRune s s.char else s
      readRune s
    else s
  let (earlyIllegal, s) ←
    if s.char = zero ∧ isDigit (nextRune s) then
      let s := readRune s
      if isDigit s.char ∧ nextRune s ≠ colon then some (true, emit s TokIllegal)
      else some (false, writeRune s zero)
    else some (false, s)
  if earlyIllegal then some s
  else do
    let (k, s) ← decLoop f s
    match k with
    | none => some s
    | some k => some (emit s k)

/-- Call selector for the mutually recursive value-scanning functions
(`scanValue`, `scanArray` and its loop, `scanInline` and its loop and
loop bottom), combined into the single fuel-indexed `scanNest` so that
the kernel can evaluate them. -/
inductive ScanCall where
  | value
  | array
  | arrayLoop
  | inline
  | inlineLoop
  | inlineBottom

/-- The mutually recursive bodies of `scanValue` / `scanArray` /
`scanInline` (each `ScanCall` branch mirrors its Go function; see the
named wrappers below). -/
def scanNest : Nat → ScanCall → Scanner → Option Scanner
  | 0, _, _ => none
  | f + 1, c, s =>
    match c with
    | .value => do
      -- `func scanValue(s *Scanner) ScanFunc` (it always returns nil)
      let s ← skip isBlank f s
      let s ←
        if s.char = lsquare then scanNest f .array s
        else if s.char = lcurly then scanNest f .inline s
        else if isQuote s.char then scanString f s
        else if isDigit s.char ∨ (isSign s.char ∧ isDigit (nextRune s)) then
          let k := nextRune s
          if s.char = zero ∧ (k = hex ∨ k = oct ∨ k = bin) then scanBase f s
          else scanDecimal f s
        else if isLetter s.char ∨ (isSign s.char ∧ isLetter (nextRune s)) then scanConstant f s
        else scanIllegal f s
      let s ← skip isBlank f s
      if isAlpha s.char ∨ isQuote s.char then scanIllegal f s
      else some s
    | .array =>
      -- `func scanArray(s *Scanner)`
      let s := emit s TokBegArray
      let s := readRune s
      scanNest f .arrayLoop s
    | .arrayLoop =>
      -- `for !s.isDone()` loop of `scanArray` (the Go switch lists
      -- `default` first; it is still tried last)
      if isDone s then some s
      else do
        let s ← skip (fun r => isBlank r ∨ isNL r) f s
        if s.char = rsquare then
          let s := readRune s
          some (emit s TokEndArray)
        else if s.char = lsquare then do
          let s ← scanNest f .array s
          scanNest f .arrayLoop s
        else if s.char = lcurly then do
          let s ← scanNest f .inline s
          scanNest f .arrayLoop s
        else if s.char = comma then
          scanNest f .arrayLoop (emit (readRune s) TokComma)
        else if isQuote s.char then do
          let s ← scanString f s
          scanNest f .arrayLoop s
        else if isComment s.char then do
          let s ← scanComment f s
          scanNest f .arrayLoop s
        else do
          let s ← scanNest f .value s
          scanNest f .arrayLoop s
    | .inline => do
      -- `func scanInline(s *Scanner)`
      let s := emit s TokBegInline
      let s := readRune s
      let s ← skip isBlank f s
      scanNest f .inlineLoop s
    | .inlineLoop =>
      -- `for !s.isDone()` loop of `scanInline`; `rcurly` and the default
      -- case return, every other case falls to `s.skip(isBlank)`
      if isDone s then some s
      else
        if s.char = rcurly then
          some (emit (readRune s) TokEndInline)
        else if s.char = comma then
          scanNest f .inlineBottom (emit (readRune s) TokComma)
        else if s.char = equal then do
          let s := emit (readRune s) TokEqual
          let s ← skip isBlank f s
          let s ← scanNest f .value s
          scanNest f .inlineBottom s
        else if isLetter s.char then do
          let s ← scanIdent f s
          scanNest f .inlineBottom s
        else if isDigit s.char then do
          let s ← scanDigit f s
          scanNest f .inlineBottom s
        else if isQuote s.char then do
          let s ← scanString f s
          scanNest f .inlineBottom s
        else if isComment s.char then do
          let s ← scanComment f s
          scanNest f .inlineBottom s
        else
          scanIllegal f s
    | .inlineBottom => do
      -- bottom of the `scanInline` loop
      let s ← skip isBlank f s
      scanNest f .inlineLoop s

/-- Go `func scanValue(s *Scanner) ScanFunc` (it always returns nil). -/
def scanValue (f : Nat) (s : Scanner) : Option Scanner := scanNest f .value s

/-- Go `func scanArray(s *Scanner)`. -/
def scanArray (f : Nat) (s : Scanner) : Option Scanner := scanNest f .array s

/-- Go `func scanInline(s *Scanner)`. -/
def scanInline (f : Nat) (s : Scanner) : Option Scanner := scanNest f .inline s

/-- Go `ScanFunc`: the only values ever returned are `scanDefault` and
`scanValue` (nil is mapped back to `scanDefault` by the scan loop). -/
inductive ScanFn where
  | default
  | value
deriving DecidableEq

/-- Go `func scanDefault(s *Scanner) ScanFunc`. -/
def scanDefault : Nat → Scanner → Option (ScanFn × Scanner)
  | 0, _ => none
  | f + 1, s => do
    let s ← skip isBlank f s
    if s.char = newline then do
      let s ← skip (fun r => isBlank r ∨ isNL r) f s
      some (.default, emit s TokNL)
    else if s.char = lsquare then
      let s := readRune s
      if s.char = lsquare then some (.default, emit (readRune s) TokBegArrayTable)
      else some (.default, emit s TokBegRegularTable)
    else if s.char = rsquare then
      let s := readRune s
      let (k, s) :=
        if s.char = rsquare then (TokEndArrayTable, readRune s)
        else (TokEndRegularTable, s)
      do
        let s ← skip isBlank f s
        let k := if ¬ isComment s.char ∧ ¬ isNL s.char then TokIllegal else k
        some (.default, emit s k)
    else if s.char = dot then some (.default, emit (readRune s) TokDot)
    else if s.char = equal then some (.value, emit (readRune s) TokEqual)
    else if isDigit s.char then do
      let s ← scanDigit f s
      some (.default, s)
    else if isQuote s.char then do
      let s ← scanString f s
      some (.default, s)
    else if isLetter s.char then do
      let s ← scanIdent f s
      some (.default, s)
    else if isComment s.char then do
      let s ← scanComment f s
      some (.default, s)
    else do
      let s ← scanIllegal f s
      some (.default, s)

/-- The producer goroutine's loop (`func (s *Scanner) scan()`). -/
def runScan : Nat → ScanFn → Scanner → Option Scanner
  | 0, _, _ => none
  | f + 1, fn, s =>
    if isDone s then some s
    else do
      let s := backup s
      match fn with
      | .default => do
        let (fn', s) ← scanDefault f s
        runScan f fn' s
      | .value => do
        let s ← scanValue f s
        runScan f .default s

/-- Go `bytes.ReplaceAll(buf, "\r\n", "\n")`. -/
def replCRLF : List Char → List Char
  | [] => []
  | '\x0D' :: '\x0A' :: rest => '\x0A' :: replCRLF rest
  | c :: rest => c :: replCRLF rest

/-- Go `func NewScanner(r io.Reader) (*Scanner, error)`. -/
def NewScanner (f : Nat) (doc : String) : Option Scanner :=
  let s : Scanner := { input := replCRLF doc.data, line := 1, column := 0 }
  let s := readRune s
  skip (fun r => isBlank r ∨ isNL r) f s

/-- The token stream a consumer obtains by calling `Scanner.Scan` until
the queue closes (oldest first). -/
def scanTokens (f : Nat) (doc : String) : Option (List Token) := do
  let s ← NewScanner f doc
  let s ← runScan f .default s
  some s.out.reverse

/-! ### The node tree (src/unnamed/part_009) -/

/-- Go `tableType`: `tableImplicit tableType = -(iota + 1)` then regular,
array, item, inline. -/
inductive TableType where
  | implicit
  | regular
  | array
  | item
  | inline
deriving DecidableEq

def TableType.isContainer : TableType → Bool
  | .implicit | .regular | .array => true
  | _ => false

def TableType.canNest : TableType → Bool
  | .implicit | .regular | .item => true
  | _ => false

/-- The embedded `comment` struct. -/
structure CommentPair where
  pre : String := ""
  post : String := ""
deriving DecidableEq

def CommentPair.isZero (c : CommentPair) : Bool := c.pre = "" ∧ c.post = ""

/-- Go `Node`: the four implementations of the interface — `*Option`
(comment, key, value), `*Literal` (comment, token), `*Array` (comment,
pos, nodes) and `*Table` (comment, key, kind, nodes). -/
inductive Node where
  | opt : CommentPair → Token → Node → Node
  | lit : CommentPair → Token → Node
  | arr : CommentPair → Position → List Node → Node
  | tbl : CommentPair → Token → TableType → List Node → Node

/-- Go `String()` of each node kind. -/
def Node.str : Node → String
  | .opt _ key _ => key.literal
  | .lit _ tok => tok.literal
  | .arr _ _ _ => "array"
  | .tbl _ key _ _ => key.literal

/-- Go `Pos()` of each node kind. -/
def Node.posOf : Node → Position
  | .opt _ key _ => key.pos
  | .lit _ tok => tok.pos
  | .arr _ p _ => p
  | .tbl _ key _ _ => key.pos

def Node.isEmpty : Node → Bool
  | .opt _ _ v => v.isEmpty
  | .lit _ _ => false
  | .arr _ _ ns => ns.isEmpty
  | .tbl _ _ _ ns => ns.isEmpty

/-- Go `(a *Array) isMultiline()`. -/
def arrayMultilineLoop : Position → List Node → Bool
  | _, [] => false
  | prev, n :: rest =>
    let curr := n.posOf
    if ¬ prev.IsZero ∧ curr.line ≠ prev.line then true
    else arrayMultilineLoop curr rest

def Node.isMultiline : Node → Bool
  | .arr _ _ ns => arrayMultilineLoop {} ns
  | _ => false

/-- Children list of a table node ([] on the other kinds, which never
arises where the code reads `t.nodes`). -/
def Node.nodesOf : Node → List Node
  | .tbl _ _ _ ns => ns
  | .arr _ _ ns => ns
  | _ => []

/-- Table kind of a node (regular on non-tables, which never arises). -/
def Node.kindOf : Node → TableType
  | .tbl _ _ k _ => k
  | _ => .regular

/-- Key token of a table node. -/
def Node.keyOf : Node → Token
  | .tbl _ key _ _ => key
  | .opt _ key _ => key
  | _ => {}

def Node.withNodes : Node → List Node → Node
  | .tbl c key k _, ns => .tbl c key k ns
  | .arr c p _, ns => .arr c p ns
  | n, _ => n

/-- Go `withComment` (mutating in Go). -/
def Node.withCommentSet : Node → String → String → Node
  | .opt _ key v, pre, post => .opt { pre := pre, post := post } key v
  | .lit _ tok, pre, post => .lit { pre := pre, post := post } tok
  | .arr _ p ns, pre, post => .arr { pre := pre, post := post } p ns
  | .tbl _ key k ns, pre, post => .tbl { pre := pre, post := post } key k ns

def Node.isRoot : Node → Bool
  | .tbl _ key _ _ => key.isZero
  | _ => false

/-- Go `(t *Table) isArray()`. -/
def Node.isArray (n : Node) : Bool := n.kindOf = .array

/-- Go `(t *Table) isInline()`. -/
def Node.isInline : Node → Bool
  | .tbl _ key k _ => key.literal = "" ∧ k = .inline
  | _ => false

/-- Go `(t *Table) isImplicit()`. -/
def Node.isImplicit (n : Node) : Bool := n.kindOf = .implicit

def dfltNode : Node := .lit {} {}

/-- Go `sort.Search(n, f)`: Go's binary search returning the smallest index
in [0, n) satisfying `f` (or n), by the exact bisection of the sort
package.  The window `j - i` shrinks every iteration, so fuel `j - i`
(passed as first argument) always suffices and the 0 case with `i < j`
is unreachable from `sortSearch`. -/
def searchLoop (pred : Nat → Bool) : Nat → Nat → Nat → Nat
  | 0, i, _ => i
  | d + 1, i, j =>
    if i < j then
      if pred ((i + j) / 2) then searchLoop pred d i ((i + j) / 2)
      else searchLoop pred d ((i + j) / 2 + 1) j
    else i

def sortSearch (n : Nat) (pred : Nat → Bool) : Nat := searchLoop pred n 0 n

/-- Go's `s1 <= s2` on strings (byte-wise lexicographic, which agrees
with code-point order), as a directly computable comparison. -/
def chListLe : List Char → List Char → Bool
  | [], _ => true
  | _ :: _, [] => false
  | a :: as, b :: bs => if a < b then true else if b < a then false else chListLe as bs

def goStrLe (a b : String) : Bool := chListLe a.data b.data

/-- Go `func searchNodes(str string, nodes []Node) int`. -/
def searchNodes (str : String) (nodes : List Node) : Nat :=
  sortSearch nodes.length (fun i => goStrLe str (nodes.getD i dfltNode).str)

/-- Go `func appendNode(nodes []Node, n Node, at int) []Node`. -/
def appendNode (nodes : List Node) (n : Node) (at_ : Nat) : List Node :=
  if at_ ≥ nodes.length then nodes ++ [n]
  else nodes.take at_ ++ n :: nodes.drop at_

/-- Insert into a `String()`-sorted list, after any equal keys. -/
def insertLe (n : Node) : List Node → List Node
  | [] => [n]
  | x :: xs => if goStrLe x.str n.str then x :: insertLe n xs else n :: x :: xs

/-- Go `sort.Slice(nodes, func(i, j) { nodes[i].String() <= nodes[j].String() })`:
the comparator is non-strict, so the order of equal keys is unspecified in
Go; modelled as insertion sort, which produces a sorted permutation. -/
def sortNodes : List Node → List Node
  | [] => []
  | x :: xs => insertLe x (sortNodes xs)

/-- kind update helper used by `mergeTables` and `registerOption`. -/
def Node.withKind : Node → TableType → Node
  | .tbl c key _ ns, k => .tbl c key k ns
  | n, _ => n

/-- Go `func mergeTables(t, n *Table) *Table`: `t` keeps its key, comment and
the concatenated children, and its kind is forced to regular. -/
def mergeTables (t n : Node) : Node :=
  (t.withNodes (sortNodes (t.nodesOf ++ n.nodesOf))).withKind .regular

/-- Go `func (t *Table) registerTable(n *Table) error`.  Returns the updated
table together with the path (child indices) at which the Go pointer `n`
ends up living, so the caller's `t = x` can be replayed functionally:
merged into an implicit table at `at` → `[at]`; appended to an array
table's items → `[at, len]`; fresh item wrapped into a new array table →
`[at, 0]`; otherwise inserted at `at` → `[at]`. -/
def registerTable (t n : Node) : Except String (Node × List Nat) :=
  if t.isInline then .error "can not register table to inline table"
  else
    let tnodes := t.nodesOf
    let nkey := (n.keyOf).literal
    let at_ := searchNodes nkey tnodes
    let fall : Except String (Node × List Nat) :=
      let idx := min at_ tnodes.length
      if n.kindOf = .item then
        let wrapped : Node := .tbl {} n.keyOf .array [n]
        .ok (t.withNodes (appendNode tnodes wrapped at_), [idx, 0])
      else
        .ok (t.withNodes (appendNode tnodes n at_), [idx])
    if h : at_ < tnodes.length then
      match tnodes.get ⟨at_, h⟩ with
      | .opt _ okey _ =>
        if okey.literal = nkey then .error (nkey ++ ": option already exists")
        else fall
      | .tbl xc xkey xkind xnodes =>
        if xkey.literal ≠ nkey then fall
        else if xkind = .implicit then
          .ok (t.withNodes (tnodes.set at_ (mergeTables n (.tbl xc xkey xkind xnodes))), [at_])
        else if xkind = .array then
          if n.kindOf ≠ .item then .error (xkey.literal ++ ": invalid table type")
          else
            .ok (t.withNodes (tnodes.set at_ (.tbl xc xkey xkind (xnodes ++ [n]))),
              [at_, xnodes.length])
        else .error (nkey ++ ": table already exists")
      | _ => fall
    else fall

/-- Go `func (t *Table) retrieveTable(tok Token) (*Table, error)`: same
convention, the path points at the table the Go pointer result aliases. -/
def retrieveTable (t : Node) (tok : Token) : Except String (Node × List Nat) :=
  let tnodes := t.nodesOf
  let at_ := searchNodes tok.literal tnodes
  let fresh : Except String (Node × List Nat) :=
    registerTable t (.tbl {} tok .implicit [])
  if h : at_ < tnodes.length then
    match tnodes.get ⟨at_, h⟩ with
    | .opt _ okey _ =>
      if okey.literal = tok.literal then .error (tok.literal ++ ": option")
      else fresh
    | .tbl _ xkey xkind xnodes =>
      if xkey.literal ≠ tok.literal then fresh
      else if xkind = .array ∧ 0 < xnodes.length then .ok (t, [at_, xnodes.length - 1])
      else .ok (t, [at_])
    | _ => fresh
  else fresh

/-- Go `func (t *Table) registerOption(o *Option) error`. -/
def registerOption (t o : Node) : Except String Node :=
  let tnodes := t.nodesOf
  let k := o.str
  let at_ := searchNodes k tnodes
  let fall : Except String Node :=
    let t := t.withNodes (appendNode tnodes o at_)
    .ok (if t.isImplicit then t.withKind .regular else t)
  if h : at_ < tnodes.length then
    match tnodes.get ⟨at_, h⟩ with
    | .opt _ okey _ =>
      if okey.literal = k then .error (okey.literal ++ ": option already exists")
      else fall
    | .tbl _ xkey _ _ =>
      if xkey.literal = k then .error (xkey.literal ++ ": table already exists")
      else fall
    | _ => fall
  else fall

/-- Dereference a child path (Go pointer into the tree). -/
def ptrGet : Node → List Nat → Option Node
  | t, [] => some t
  | t, i :: p =>
    match (t.nodesOf).get? i with
    | some c => ptrGet c p
    | none => none

/-- Write back through a child path. -/
def ptrSet : Node → List Nat → Node → Option Node
  | _, [], n => some n
  | t, i :: p, n =>
    match (t.nodesOf).get? i with
    | some c =>
      match ptrSet c p n with
      | some c => some (t.withNodes ((t.nodesOf).set i c))
      | none => none
    | none => none

/-- Go `retrieveTable` through a pointer: run it on the table at `p` inside
`root`, write the result back and return the extended pointer.  The
`dangling pointer` error is a modelling artifact and unreachable for
pointers produced by the parser. -/
def retrieveAt (root : Node) (p : List Nat) (tok : Token) :
    Except String (Node × List Nat) :=
  match ptrGet root p with
  | none => .error "dangling pointer"
  | some t =>
    match retrieveTable t tok with
    | .error e => .error e
    | .ok (t, rel) =>
      match ptrSet root p t with
      | none => .error "dangling pointer"
      | some root => .ok (root, p ++ rel)

/-- Go `registerTable` through a pointer. -/
def registerAt (root : Node) (p : List Nat) (n : Node) :
    Except String (Node × List Nat) :=
  match ptrGet root p with
  | none => .error "dangling pointer"
  | some t =>
    match registerTable t n with
    | .error e => .error e
    | .ok (t, rel) =>
      match ptrSet root p t with
      | none => .error "dangling pointer"
      | some root => .ok (root, p ++ rel)

/-- Go `registerOption` through a pointer. -/
def registerOptionAt (root : Node) (p : List Nat) (o : Node) : Except String Node :=
  match ptrGet root p with
  | none => .error "dangling pointer"
  | some t =>
    match registerOption t o with
    | .error e => .error e
    | .ok t =>
      match ptrSet root p t with
      | none => .error "dangling pointer"
      | some root => .ok root

/-- Go `withComment` through a pointer. -/
def withCommentAt (root : Node) (p : List Nat) (pre post : String) : Option Node :=
  match ptrGet root p with
  | none => none
  | some t => ptrSet root p (t.withCommentSet pre post)

/-- Insert into a `Pos().Less`-sorted list. -/
def insertPos (n : Node) : List Node → List Node
  | [] => [n]
  | x :: xs => if (x.posOf).Less n.posOf then x :: insertPos n xs else n :: x :: xs

/-- Go `sort.Slice(vs, func(i, j) { vs[i].Pos().Less(vs[j].Pos()) })` as
insertion sort. -/
def sortByPos : List Node → List Node
  | [] => []
  | x :: xs => insertPos x (sortByPos xs)

def Node.isOpt : Node → Bool
  | .opt _ _ _ => true
  | _ => false

def Node.isTbl : Node → Bool
  | .tbl _ _ _ _ => true
  | _ => false

/-- Go `func (t *Table) listOptions() []*Option`. -/
def listOptions (t : Node) : List Node :=
  sortByPos ((t.nodesOf).filter Node.isOpt)

/-- Go `func (t *Table) listTables() []*Table`. -/
def listTables (t : Node) : List Node :=
  sortByPos ((t.nodesOf).filter Node.isTbl)

/-! ### The parser (src/unnamed/part_015) -/

/-- Parser state: the unread portion of the scanner's token queue, the
two-token lookahead and the `comment bytes.Buffer`. -/
structure PState where
  toks : List Token := []
  curr : Token := {}
  peek : Token := {}
  comment : String := ""
deriving DecidableEq

/-- Go `func (p *Parser) next()`: a no-op once TokEOF is current; `Scan` on
the closed queue yields the empty EOF token. -/
def pnext (st : PState) : PState :=
  if st.curr.type = TokEOF then st
  else
    match st.toks with
    | [] => { st with curr := st.peek, peek := { literal := "", type := TokEOF } }
    | t :: ts => { st with curr := st.peek, peek := t, toks := ts }

/-- Go `func (p *Parser) isDone() bool`. -/
def pDone (st : PState) : Bool := st.curr.type = TokEOF

/-- The message of `unexpectedToken` (position and token rendering
elided). -/
def unexpectedToken (want ctx : String) : String :=
  "[" ++ ctx ++ "]: unexpected token (want: " ++ want ++ ")"

/-- Loop of `func (p *Parser) parseComment()`. -/
def parseCommentLoop : Nat → Nat → PState → Option PState
  | 0, _, _ => none
  | f + 1, i, st =>
    if st.curr.isComment then
      let st := { st with
        comment := st.comment ++ (if 0 < i then "\n" else "") ++ st.curr.literal }
      let st := pnext st
      let st := if st.curr.type = TokNL then pnext st else st
      parseCommentLoop f (i + 1) st
    else some st

/-- Go `func (p *Parser) parseComment()`. -/
def parseComment (f : Nat) (st : PState) : Option PState :=
  parseCommentLoop f 0 { st with comment := "" }

/-- Go `func (p *Parser) parseLiteral() (Node, error)` (the caller advances). -/
def parseLiteral (st : PState) : Except String Node :=
  if ¬ st.curr.isValue then .error (unexpectedToken "literal" "value")
  else .ok (.lit {} st.curr)

/-- Call selector for the mutually recursive parsing functions
(`parseOption`, `parseArray` and its loop, `parseInline` and its loop),
combined into the single fuel-indexed `parseRec` so that the kernel can
evaluate them. -/
inductive PCall where
  | option : Node → List Nat → Bool → PCall
  | array : PCall
  | arrayLoop : Position → List Node → PCall
  | inline : PCall
  | inlineLoop : Node → PCall

/-- The mutually recursive bodies of `parseOption` / `parseArray` /
`parseInline` (each `PCall` branch mirrors its Go function; see the
named wrappers below). -/
def parseRec : Nat → PCall → PState → Option (Except String (Node × PState))
  | 0, _, _ => none
  | f + 1, c, st =>
    match c with
    | .option base tp dotted =>
      -- `func (p *Parser) parseOption(t *Table, dotted bool) error`.
      -- `base` is the table the Go pointer `t` lives in and `tp` the
      -- pointer path; a value-parse error is deferred past the comment
      -- handling and then returned in place of registering.
      if ¬ st.curr.IsIdent then some (.error (unexpectedToken "ident" "option"))
      else if st.peek.type = TokDot ∧ dotted then
        match retrieveAt base tp st.curr with
        | .error e => some (.error e)
        | .ok (base, tp) => parseRec f (.option base tp dotted) (pnext (pnext st))
      else
        let key := st.curr
        let st := pnext st
        if st.curr.type ≠ TokEqual then some (.error (unexpectedToken "=" "option"))
        else
          let st := pnext st
          match
            (if st.curr.type = TokBegArray then parseRec f .array st
             else if st.curr.type = TokBegInline then parseRec f .inline st
             else some ((parseLiteral st).map (fun v => (v, pnext st)))) with
          | none => none
          | some (.error e) => some (.error e)
          | some (.ok (v, st)) =>
            let (post, st) := if st.curr.isComment then (st.curr.literal, pnext st) else ("", st)
            let o : Node := .opt { pre := st.comment, post := post } key v
            match registerOptionAt base tp o with
            | .error e => some (.error e)
            | .ok base => some (.ok (base, st))
    | .array =>
      -- `func (p *Parser) parseArray() (Node, error)`
      let st := pnext st
      parseRec f (.arrayLoop st.curr.pos []) st
    | .arrayLoop pos acc =>
      -- the element loop of `parseArray`
      if pDone st ∨ st.curr.type = TokEndArray then
        if st.curr.type ≠ TokEndArray then some (.error (unexpectedToken "]" "array"))
        else some (.ok (.arr {} pos acc, pnext st))
      else
        match parseComment f st with
        | none => none
        | some st =>
          let pre := st.comment
          match
            (if st.curr.type = TokBegArray then parseRec f .array st
             else if st.curr.type = TokBegInline then parseRec f .inline st
             else some ((parseLiteral st).map (fun v => (v, pnext st)))) with
          | none => none
          | some (.error e) => some (.error e)
          | some (.ok (node, st)) =>
            if st.curr.type = TokEndArray ∨ st.curr.type = TokComma ∨
                st.curr.type = TokComment then
              let st := if st.curr.type = TokComma then pnext st else st
              let (post, st) := if st.curr.isComment then (st.curr.literal, pnext st) else ("", st)
              let node := node.withCommentSet pre post
              let st := if st.curr.isNL then pnext st else st
              parseRec f (.arrayLoop pos (acc ++ [node])) st
            else some (.error (unexpectedToken "," "array"))
    | .inline =>
      -- `func (p *Parser) parseInline() (Node, error)`: builds a detached
      -- table of kind inline whose key token carries only a position
      let st := pnext st
      parseRec f (.inlineLoop (.tbl {} { pos := st.curr.pos } .inline [])) st
    | .inlineLoop t =>
      -- the option loop of `parseInline`
      if pDone st ∨ st.curr.type = TokEndInline then
        if st.curr.type ≠ TokEndInline then some (.error (unexpectedToken "\x7d" "inline"))
        else some (.ok (t, pnext st))
      else
        match parseRec f (.option t [] false) st with
        | none => none
        | some (.error e) => some (.error e)
        | some (.ok (t, st)) =>
          if st.curr.type = TokComma then parseRec f (.inlineLoop t) (pnext st)
          else if st.curr.type = TokEndInline then parseRec f (.inlineLoop t) st
          else some (.error (unexpectedToken ",, \x7d" "inline"))

/-- Go `func (p *Parser) parseOption(t *Table, dotted bool) error`. -/
def parseOption (f : Nat) (base : Node) (tp : List Nat) (dotted : Bool) (st : PState) :
    Option (Except String (Node × PState)) :=
  parseRec f (.option base tp dotted) st

/-- Go `func (p *Parser) parseArray() (Node, error)`. -/
def parseArray (f : Nat) (st : PState) : Option (Except String (Node × PState)) :=
  parseRec f .array st

/-- Go `func (p *Parser) parseInline() (Node, error)`. -/
def parseInline (f : Nat) (st : PState) : Option (Except String (Node × PState)) :=
  parseRec f .inline st

/-- Go `func (p *Parser) parseOptions(t *Table) error`. -/
def parseOptions : Nat → Node → List Nat → PState → Option (Except String (Node × PState))
  | 0, _, _, _ => none
  | f + 1, base, tp, st =>
    match parseComment f st with
    | none => none
    | some st =>
      if st.curr.isTable ∨ pDone st then
        if ¬ st.curr.isTable ∧ ¬ pDone st then some (.error (unexpectedToken "[, [[" "body"))
        else some (.ok (base, st))
      else
        match parseOption f base tp true st with
        | none => none
        | some (.error e) => some (.error e)
        | some (.ok (base, st)) =>
          if ¬ st.curr.isNL then some (.error (unexpectedToken "newline" "body"))
          else parseOptions f base tp (pnext st)

/-- The `Loop` of `parseTable`; its normal exit returns the walked
pointer so the common tail can run `parseOptions` on it. -/
def parseTableLoop : Nat → Node → List Nat → TableType → PState →
    Option (Except String (Node × List Nat × PState))
  | 0, _, _, _, _ => none
  | f + 1, base, tp, kind, st =>
    if pDone st then some (.ok (base, tp, st))
    else if ¬ st.curr.IsIdent then some (.error (unexpectedToken "ident" "table"))
    else if st.peek.type = TokDot then
      match retrieveAt base tp st.curr with
      | .error e => some (.error e)
      | .ok (base, tp) => parseTableLoop f base tp kind (pnext (pnext st))
    else if st.peek.type = TokEndRegularTable ∨ st.peek.type = TokEndArrayTable then
      match registerAt base tp (.tbl {} st.curr kind []) with
      | .error e => some (.error e)
      | .ok (base, tp) =>
        match ptrGet base tp with
        | none => some (.error "dangling pointer")
        | some t =>
          if t.kindOf = .item ∧ st.peek.type ≠ TokEndArrayTable then
            some (.error (unexpectedToken "]" "table"))
          else
            let st := pnext (pnext st)
            let (post, st) := if st.curr.isComment then (st.curr.literal, pnext st) else ("", st)
            match withCommentAt base tp st.comment post with
            | none => some (.error "dangling pointer")
            | some base => some (.ok (base, tp, st))
    else some (.error (unexpectedToken "], ." "table"))

/-- Go `func (p *Parser) parseTable(t *Table, kind tableType) error`. -/
def parseTable (f : Nat) (base : Node) (tp : List Nat) (kind : TableType) (st : PState) :
    Option (Except String (Node × PState)) :=
  match parseTableLoop f base tp kind st with
  | none => none
  | some (.error e) => some (.error e)
  | some (.ok (base, tp, st)) =>
    if ¬ st.curr.isNL then some (.error (unexpectedToken "newline" "table"))
    else parseOptions f base tp (pnext st)

/-- The table loop of `func (p *Parser) Parse() (Node, error)`. -/
def parseLoop : Nat → Node → PState → Option (Except String (Node × PState))
  | 0, _, _ => none
  | f + 1, base, st =>
    if pDone st then some (.ok (base, st))
    else if ¬ st.curr.isTable then some (.error (unexpectedToken "[, [[" "parse"))
    else
      let kind : TableType := if st.curr.type = TokBegArrayTable then .item else .regular
      let st := pnext st
      match parseTable f base [] kind st with
      | none => none
      | some (.error e) => some (.error e)
      | some (.ok (base, st)) => parseLoop f base st

/-- Go `Parse` run on a token list (root table of kind regular, zero key). -/
def Parse (f : Nat) (toks : List Token) : Option (Except String Node) :=
  let st : PState := { toks := toks }
  let st := pnext (pnext st)
  match parseOptions f (.tbl {} {} .regular []) [] st with
  | none => none
  | some (.error e) => some (.error e)
  | some (.ok (root, st)) =>
    match parseLoop f root st with
    | none => none
    | some (.error e) => some (.error e)
    | some (.ok (root, _)) => some (.ok root)

/-- Go `func Parse(r io.Reader) (Node, error)`: scan then parse. -/
def ParseDoc (f : Nat) (doc : String) : Option (Except String Node) :=
  match scanTokens f doc with
  | none => none
  | some toks => Parse f toks

/-! ### The formatter (src/format.go).

The `Formatter` is embedded with its `bufio.Writer` replaced by an output
string; every formatting function returns the updated state paired with
the `error` result (`none` = nil), since Go keeps writing to the shared
writer even on error paths.  The `WithTime`/`WithFloat` conversion rules
are not exercised by any claim and are left out; the default identity
conversions and the `WithNumber` integer conversion are embedded. -/

/- `arrayMixed int = iota; arraySingle; arrayMulti`. -/
def arrayMixed : Int := 0
def arraySingle : Int := 1
def arrayMulti : Int := 2

/-- Go `type Formatter struct` with the defaults set by `NewFormatter`
(identity conversions, mixed arrays, comments on, tab indent, LF). -/
structure Fmt where
  floatconv : String → Except String String := fun s => .ok s
  intconv : String → Except String String := fun s => .ok s
  timeconv : String → Except String String := fun s => .ok s
  withArray : Int := arrayMixed
  withInline : Bool := false
  withTab : String := "\t"
  withEOL : String := "\n"
  withEmpty : Bool := false
  withComment : Bool := true
  withNest : Bool := false
  currLevel : Int := 0
  withRaw : Bool := false
  out : String := ""

def strRepeat (s : String) (n : Nat) : String :=
  String.join (List.replicate n s)

def wr (f : Fmt) (s : String) : Fmt := { f with out := f.out ++ s }

def endLine (f : Fmt) : Fmt := wr f f.withEOL

/-- Go `beginLine` (`currLevel` never goes negative at a call site, so the
`toNat` clamp is inert). -/
def beginLine (f : Fmt) : Fmt :=
  if f.currLevel = 0 then f else wr f (strRepeat f.withTab f.currLevel.toNat)

def enterLevel (f : Fmt) (force : Bool) : Fmt :=
  if f.withNest ∨ force then { f with currLevel := f.currLevel + 1 } else f

def leaveLevel (f : Fmt) (force : Bool) : Fmt :=
  if f.withNest ∨ force then { f with currLevel := f.currLevel - 1 } else f

def enterArray (f : Fmt) : Fmt := enterLevel f true

def leaveArray (f : Fmt) : Fmt := leaveLevel f true

def Node.commentOf : Node → CommentPair
  | .opt c _ _ => c
  | .lit c _ => c
  | .arr c _ _ => c
  | .tbl c _ _ _ => c

def Node.valueOf : Node → Node
  | .opt _ _ v => v
  | n => n

def Node.isArr : Node → Bool
  | .arr _ _ _ => true
  | _ => false

def Node.withKeySet : Node → Token → Node
  | .tbl c _ k ns, key => .tbl c key k ns
  | .opt c _ v, key => .opt c key v
  | n, _ => n

/-- Go `func (f *Formatter) canNest(curr *Table) bool`. -/
def canNest (f : Fmt) (curr : Node) : Bool :=
  if curr.isRoot then false
  else if curr.kindOf = .implicit ∧ ¬ f.withEmpty then false
  else (curr.kindOf).canNest

/-- Go `func longestKey(options []*Option) int` (byte length). -/
def longestKey (options : List Node) : Nat :=
  options.foldl
    (fun length o =>
      let n := ((o.keyOf).literal).utf8ByteSize
      if length = 0 ∨ length < n then n else length) 0

/-- Go `func (f *Formatter) writeKey(str string, length int)`. -/
def writeKey (f : Fmt) (str : String) (length : Nat) : Fmt :=
  let f := wr f str
  let f := if 0 < length then wr f (strRepeat " " (length - str.utf8ByteSize)) else f
  wr f " = "

def writeComment (f : Fmt) (str : String) (pre : Bool) : Fmt :=
  let f := if pre then beginLine f else wr f " "
  let f := wr (wr f "# ") str
  if pre then endLine f else f

/-- Go `func (f *Formatter) formatComment(comment string, pre bool) error`:
the `bufio` line scanner agrees with `splitOn` here because parser
comments never end in a newline; the error is always nil. -/
def formatComment (f : Fmt) (comment : String) (pre : Bool) : Fmt :=
  if ¬ f.withComment ∨ comment = "" then f
  else (comment.splitOn "\n").foldl (fun f line => writeComment f line pre) f

def writeRegularHeader (f : Fmt) (str : String) : Fmt :=
  wr (wr (wr (beginLine f) "[") str) "]"

def writeArrayHeader (f : Fmt) (str : String) : Fmt :=
  wr (wr (wr (beginLine f) "[[") str) "]]"

/-- Go `func (f *Formatter) formatHeader(curr *Table, paths []string) error`:
the caller discards the error but keeps the writes made before it. -/
def formatHeader (f : Fmt) (curr : Node) (paths : List String) : Fmt × Option String :=
  if curr.isRoot then (f, none)
  else
    let paths := if curr.kindOf ≠ .item then paths ++ [(curr.keyOf).literal] else paths
    let f := formatComment f (curr.commentOf).pre true
    let str := String.intercalate "." paths
    match curr.kindOf with
    | .regular | .implicit =>
      (endLine (formatComment (writeRegularHeader f str) (curr.commentOf).post false), none)
    | .item =>
      (endLine (formatComment (writeArrayHeader f str) (curr.commentOf).post false), none)
    | _ => (f, some (str ++ ": can not write header"))

/-- Go `func escapeBasic(r rune) (rune, bool)`. -/
def escapeBasic (r : Char) : Char × Bool :=
  if r = backslash ∨ r = dquote then (r, true)
  else if r = newline then ('n', true)
  else if r = tab then ('t', true)
  else if r = formfeed then ('f', true)
  else if r = backspace then ('b', true)
  else if r = carriage then ('r', true)
  else (r, false)

/-- Go `func escapeMulti(r rune) (rune, bool)`. -/
def escapeMulti (r : Char) : Char × Bool :=
  if r = backslash ∨ r = dquote then (r, true)
  else if r = tab then ('t', true)
  else if r = formfeed then ('f', true)
  else if r = backspace then ('b', true)
  else if r = carriage then ('r', true)
  else (r, false)

def escApply (esc : Char → Char × Bool) (c : Char) : String :=
  let (c, ok) := esc c
  if ok then String.mk [backslash, c] else c.toString

/-- Loop of `escapeString`; decoding past the end of the string yields
RuneError with width 0, after which the loop terminates. -/
def escLoop (multi : Bool) (esc : Char → Char × Bool) : List Char → String
  | [] => ""
  | c :: rest =>
    if multi ∧ c = dquote then
      match rest with
      | [] => c.toString ++ escApply esc runeErrorChar
      | d :: rest2 =>
        if d = dquote then
          match rest2 with
          | [] => c.toString ++ d.toString ++ escApply esc runeErrorChar
          | e :: rest3 => c.toString ++ d.toString ++ escApply esc e ++ escLoop multi esc rest3
        else c.toString ++ escApply esc d ++ escLoop multi esc rest2
    else escApply esc c ++ escLoop multi esc rest

/-- Go `func escapeString(str string, multi bool, escape func(rune) (rune, bool))`. -/
def escapeString (str : String) (multi : Bool) (esc : Option (Char → Char × Bool)) : String :=
  match esc with
  | none => str
  | some esc => escLoop multi esc str.data

def twPunct : List Char := [' ', '\x09', '.', '?', ',', '!', ';']

/-- Go `bytes.IndexAny(data, " \t.?,!;")` over runes. -/
def indexAnyPunct : List Char → Option Nat
  | [] => none
  | c :: rest =>
    if twPunct.contains c then some 0 else (indexAnyPunct rest).map (· + 1)

/-- The window loop of `textWrap`'s split function: `none` means no
punctuation in the window (the scanner requests more data, so the rest of
the input becomes the final token).  `i` grows every iteration and the
loop runs only while `i < 72`, so fuel 80 is never exhausted. -/
def twLoop (data : List Char) : Nat → Nat → Nat → Option Nat
  | 0, i, j => some (if 72 + 8 ≤ i then j else i)
  | fu + 1, i, j =>
    if i < 72 then
      match indexAnyPunct (data.drop i) with
      | none => none
      | some x => twLoop data fu (i + x + 1) i
    else some (if 72 + 8 ≤ i then j else i)

/-- The chunk sequence `textWrap`'s scanner produces; a zero advance makes
`bufio.Scanner` abort after repeated empty tokens (modelled as `none`). -/
def twChunks : Nat → List Char → Option (List (List Char))
  | 0, _ => none
  | fu + 1, data =>
    match twLoop data 80 0 0 with
    | none => some [data]
    | some i =>
      if i = 0 then none
      else
        match twChunks fu (data.drop i) with
        | none => none
        | some rest => some (data.take i :: rest)

/-- Go `func textWrap(str string) string`: chunks joined by `\`+newline. -/
def textWrap (str : String) : Option String :=
  (twChunks (str.length + 1) str.data).map
    (fun cs => String.intercalate "\\\n" (cs.map String.mk))

/-- Go `func (f *Formatter) formatString(tok Token)`: writes nothing for
token types outside the four string flavours. -/
def formatStringTok (f : Fmt) (tok : Token) : Option Fmt :=
  let sel : Option (Option (Char → Char × Bool) × String × Bool) :=
    if tok.type = TokBasic then some (some escapeBasic, "\"", false)
    else if tok.type = TokBasicMulti then some (some escapeMulti, "\"\"\"", true)
    else if tok.type = TokLiteral then some (none, "'", false)
    else if tok.type = TokLiteralMulti then some (none, "'''", true)
    else none
  match sel with
  | none => some f
  | some (esc, quoting, isMulti) =>
    let f := wr f quoting
    let f := if isMulti then endLine f else f
    let str := escapeString tok.literal isMulti esc
    match (if isMulti ∧ ¬ str.data.contains newline then textWrap str else some str) with
    | none => none
    | some str => some (wr (wr f str) quoting)

/-- Go `func (f *Formatter) convertValue(tok Token) (string, error)`. -/
def convertValue (f : Fmt) (tok : Token) : Except String String :=
  if tok.type = TokDatetime then f.timeconv tok.literal
  else if tok.type = TokInteger then f.intconv tok.literal
  else if tok.type = TokFloat then f.floatconv tok.literal
  else .ok tok.literal

/-- Go `func (f *Formatter) formatLiteral(i *Literal) error`. -/
def formatLiteral (f : Fmt) (tok : Token) : Option (Fmt × Option String) :=
  if tok.isString then (formatStringTok f tok).map (fun f => (f, none))
  else
    match convertValue f tok with
    | .ok str => some (wr f str, none)
    | .error e => some (f, some e)

/- Model of `strconv.ParseInt(str, 0, 64)` / `strconv.FormatInt` used by
the `WithNumber` rule's `formatInteger` conversion. -/

def lowerC (c : Char) : Char :=
  if 'A' ≤ c ∧ c ≤ 'Z' then Char.ofNat (c.toNat + 32) else c

def hexDigitVal (c : Char) : Option Nat :=
  if '0' ≤ c ∧ c ≤ '9' then some (c.toNat - 48)
  else if 'a' ≤ c ∧ c ≤ 'z' then some (c.toNat - 87)
  else if 'A' ≤ c ∧ c ≤ 'Z' then some (c.toNat - 55)
  else none

/-- Loop of strconv's `underscoreOK` (`saw` is `^`, `0`, `_` or `!`). -/
def underscoreOKLoop : List Char → Bool → Char → Bool
  | [], _, saw => saw ≠ '_'
  | c :: rest, hexa, saw =>
    if ('0' ≤ c ∧ c ≤ '9') ∨ (hexa ∧ 'a' ≤ lowerC c ∧ lowerC c ≤ 'f') then
      underscoreOKLoop rest hexa '0'
    else if c = '_' then
      if saw ≠ '0' then false else underscoreOKLoop rest hexa '_'
    else if saw = '_' then false
    else underscoreOKLoop rest hexa '!'

/-- strconv's `underscoreOK`: underscores only between digits (or between
a base prefix and a digit). -/
def underscoreOK (s : List Char) : Bool :=
  let s1 :=
    match s with
    | c :: rest => if c = '-' ∨ c = '+' then rest else c :: rest
    | [] => []
  match s1 with
  | '0' :: c :: rest =>
    if lowerC c = 'b' ∨ lowerC c = 'o' ∨ lowerC c = 'x' then
      underscoreOKLoop rest (lowerC c = 'x') '0'
    else underscoreOKLoop ('0' :: c :: rest) false '^'
  | s1 => underscoreOKLoop s1 false '^'

/-- Digit accumulation (base-0 mode skips underscores). -/
def parseDigits (base : Nat) : List Char → Nat → Option Nat
  | [], acc => some acc
  | c :: rest, acc =>
    if c = '_' then parseDigits base rest acc
    else
      match hexDigitVal c with
      | none => none
      | some d => if base ≤ d then none else parseDigits base rest (acc * base + d)

/-- Go `strconv.ParseInt(str, 0, 64)`: optional sign, base prefix detection,
underscore validation, then exact accumulation with the int64 range
check. -/
def parseInt64 (str : String) : Except String Int :=
  let s0 := str.data
  let (neg, s1) :=
    match s0 with
    | '+' :: rest => (false, rest)
    | '-' :: rest => (true, rest)
    | s => (false, s)
  if s1.isEmpty then .error (str ++ ": invalid syntax")
  else if s0.contains '_' ∧ ¬ underscoreOK s0 then .error (str ++ ": invalid syntax")
  else
    let (base, digits) :=
      match s1 with
      | '0' :: c :: rest =>
        if lowerC c = 'x' then (16, rest)
        else if lowerC c = 'o' then (8, rest)
        else if lowerC c = 'b' then (2, rest)
        else (8, '0' :: c :: rest)
      | s1 => (10, s1)
    if digits.isEmpty then .error (str ++ ": invalid syntax")
    else
      match parseDigits base digits 0 with
      | none => .error (str ++ ": invalid syntax")
      | some n =>
        if (¬ neg ∧ 2 ^ 63 ≤ n) ∨ (neg ∧ 2 ^ 63 < n) then
          .error (str ++ ": value out of range")
        else .ok (if neg then -(n : Int) else (n : Int))

def formatIntDigit (d : Nat) : Char :=
  if d < 10 then Char.ofNat (48 + d) else Char.ofNat (87 + d)

def natToBase (base : Nat) : Nat → Nat → List Char → List Char
  | 0, _, acc => acc
  | fu + 1, n, acc =>
    if n = 0 then acc else natToBase base fu (n / base) (formatIntDigit (n % base) :: acc)

/-- Go `strconv.FormatInt(n, base)` (lower-case digits). -/
def FormatInt (n : Int) (base : Nat) : String :=
  if n = 0 then "0"
  else
    (if n < 0 then "-" else "") ++ String.mk (natToBase base (n.natAbs + 1) n.natAbs [])

def strTake (s : String) (n : Nat) : String := String.mk (s.data.take n)
def strDrop (s : String) (n : Nat) : String := String.mk (s.data.drop n)

def idxOf (s : String) (c : Char) : Option Nat := s.data.indexOf? c |>.map id

def idxOfAnyEe : List Char → Option Nat
  | [] => none
  | c :: rest =>
    if c = 'e' ∨ c = 'E' then some 0 else (idxOfAnyEe rest).map (· + 1)

/-- Loop of `insertUnderscore`. -/
def iuLoop (str : String) (every : Nat) : Nat → Nat → String
  | 0, i => strDrop str i
  | fu + 1, i =>
    if i < str.length ∧ i + every < str.length then
      strTake (strDrop str i) every ++ "_" ++ iuLoop str every fu (i + every)
    else strDrop str i

/-- Go `func insertUnderscore(str string, every int) string`. -/
def insertUnderscore (str : String) (every : Nat) : String :=
  if str.length ≤ every then str
  else
    let i := str.length % every
    (if 0 < i then strTake str i ++ "_" else "") ++ iuLoop str every (str.length + 1) i

/-- Go `func withUnderscore(str string, every int) string` (the unchecked
`str[x+1]` after an exponent marker cannot be out of range for the
numeric strings this receives). -/
def withUnderscore (str : String) (every : Nat) : String :=
  if every = 0 ∨ str.length < every then str
  else
    match idxOf str '.' with
    | none => insertUnderscore str every
    | some x =>
      let part := insertUnderscore (strTake str x) every ++ "."
      let str := strDrop str (x + 1)
      match idxOfAnyEe str.data with
      | none => part ++ insertUnderscore str every
      | some x =>
        let part := part ++ insertUnderscore (strTake str x) every ++ "e"
        let c := str.data.getD (x + 1) ' '
        let (part, x) :=
          if c = '+' ∨ c = '-' then (part ++ c.toString, x + 1) else (part, x)
        part ++ insertUnderscore (strDrop str (x + 1)) every

/-- Go `func formatInteger(base, underscore int, prefix string)`. -/
def formatInteger (base : Nat) (underscore : Nat) (pfx : String) (str : String) :
    Except String String :=
  match parseInt64 str with
  | .error e => .error e
  | .ok n => .ok (pfx ++ withUnderscore (FormatInt n base) underscore)

/-- The formatter produced by `NewFormatter` with no rules. -/
def defaultFmt : Fmt := {}

/-- The formatter after `WithNumber("hex", 0)`: `intconv` is
`formatInteger(16, 0, "0x")`. -/
def hexFmt : Fmt := { intconv := formatInteger 16 0 "0x" }

/-- Go `retr` closure of `formatArrayMultiline`: the comment of a Literal,
Array or Table element (zero otherwise). -/
def amlRetr : Node → CommentPair
  | .opt _ _ _ => {}
  | n => n.commentOf

/-- Call selector for the mutually recursive value-formatting functions
(`formatValue`, `formatArray` with its two layouts and loops,
`formatInline` with its loop), combined into the single fuel-indexed
`formatVRec` so that the kernel can evaluate them. -/
inductive FCall where
  | value : Node → FCall
  | array : Node → FCall
  | arrayMulti : Node → FCall
  | amlLoop : List Node → FCall
  | arrayLine : List Node → FCall
  | alLoop : List Node → FCall
  | inline : Node → FCall
  | filLoop : Bool → List Node → FCall

/-- The mutually recursive bodies of `formatValue` / `formatArray` /
`formatInline` (each `FCall` branch mirrors its Go function; see the
named wrappers below). -/
def formatVRec : Nat → FCall → Fmt → Option (Fmt × Option String)
  | 0, _, _ => none
  | fu + 1, c, f =>
    match c with
    | .value n =>
      -- `func (f *Formatter) formatValue(n Node) error`
      match n with
      | .lit _ tok =>
        if f.withRaw then some (wr f tok.raw, none)
        else formatLiteral f tok
      | .arr _ _ _ => formatVRec fu (.array n) f
      | .tbl _ _ _ _ => formatVRec fu (.inline n) f
      | _ => some (f, some "unexpected value type")
    | .array a =>
      -- `func (f *Formatter) formatArray(a *Array) error`
      if a.nodesOf.length ≤ 1 ∨ f.withArray = arraySingle then
        formatVRec fu (.arrayLine a.nodesOf) f
      else if f.withArray = arrayMulti then formatVRec fu (.arrayMulti a) f
      else if a.isMultiline then formatVRec fu (.arrayMulti a) f
      else formatVRec fu (.arrayLine a.nodesOf) f
    | .arrayMulti a =>
      -- `func (f *Formatter) formatArrayMultiline(a *Array) error`: the
      -- deferred `leaveArray`/`beginLine`/`"]"` writes also run on the
      -- error path
      let f := enterArray f
      let f := endLine (wr f "[")
      match formatVRec fu (.amlLoop a.nodesOf) f with
      | none => none
      | some (f, err) => some (wr (beginLine (leaveArray f)) "]", err)
    | .amlLoop ns =>
      -- element loop of `formatArrayMultiline`
      match ns with
      | [] => some (f, none)
      | n :: rest =>
        let com := amlRetr n
        let f := beginLine (formatComment f com.pre true)
        match formatVRec fu (.value n) f with
        | none => none
        | some (f, some e) => some (f, some e)
        | some (f, none) =>
          let f := endLine (formatComment (wr f ",") com.post false)
          formatVRec fu (.amlLoop rest) f
    | .arrayLine ns =>
      -- `func (f *Formatter) formatArrayLine(a *Array) error`
      formatVRec fu (.alLoop ns) (wr f "[")
    | .alLoop ns =>
      -- element loop of `formatArrayLine` (`", "` between elements, `"]"`
      -- after the last; an error skips the closing bracket)
      match ns with
      | [] => some (wr f "]", none)
      | n :: rest =>
        match formatVRec fu (.value n) f with
        | none => none
        | some (f, some e) => some (f, some e)
        | some (f, none) =>
          match rest with
          | [] => some (wr f "]", none)
          | _ => formatVRec fu (.alLoop rest) (wr f ", ")
    | .inline t =>
      -- `func (f *Formatter) formatInline(t *Table) error`: `withArray`
      -- is forced to single for the duration and restored by the defer
      -- (also on error, which skips the closing brace)
      let saved := f.withArray
      let f := wr { f with withArray := arraySingle } "\x7b"
      match formatVRec fu (.filLoop true (listOptions t)) f with
      | none => none
      | some (f, some e) => some ({ f with withArray := saved }, some e)
      | some (f, none) =>
        let f := wr f "\x7d"
        some ({ f with withArray := saved }, none)
    | .filLoop first ns =>
      -- option loop of `formatInline`
      match ns with
      | [] => some (f, none)
      | o :: rest =>
        let f := if first then f else wr f ", "
        let f := writeKey f (o.keyOf).literal 0
        match formatVRec fu (.value o.valueOf) f with
        | none => none
        | some (f, some e) => some (f, some e)
        | some (f, none) => formatVRec fu (.filLoop false rest) f

/-- Go `func (f *Formatter) formatValue(n Node) error`. -/
def formatValue (fu : Nat) (f : Fmt) (n : Node) : Option (Fmt × Option String) :=
  formatVRec fu (.value n) f

/-- Go `func (f *Formatter) formatArray(a *Array) error`. -/
def formatArray (fu : Nat) (f : Fmt) (a : Node) : Option (Fmt × Option String) :=
  formatVRec fu (.array a) f

/-- Go `func (f *Formatter) formatInline(t *Table) error`. -/
def formatInline (fu : Nat) (f : Fmt) (t : Node) : Option (Fmt × Option String) :=
  formatVRec fu (.inline t) f

/-- Option loop of `formatOptions`: `array` numbers the promoted mixed
arrays and `inl` collects the promoted tables with their path prefix. -/
def foLoop : Nat → Fmt → List Node → Nat → Nat → List (String × Node) →
    Option (Fmt × Option String × List (String × Node))
  | 0, _, _, _, _, _ => none
  | _, f, [], _, _, inl => some (f, none, inl)
  | fu + 1, f, o :: rest, length, array, inl =>
    let c := o.commentOf
    let key := o.keyOf
    let v := o.valueOf
    if v.isTbl ∧ f.withInline then
      let i := ((v.withKind .regular).withKeySet key).withCommentSet c.pre c.post
      foLoop fu f rest length array (inl ++ [("", i)])
    else
      let (skip, v, array, inl) :=
        if v.isArr ∧ f.withInline then
          let t : Node :=
            .tbl {} key .array ((v.nodesOf.filter Node.isTbl).map
              (fun nod => (nod.withKeySet key).withKind .item))
          let a : Node := .arr {} {} (v.nodesOf.filter (fun n => ¬ n.isTbl))
          let (array, inl) :=
            if ¬ t.isEmpty then
              if ¬ a.isEmpty then
                (array + 1, inl ++ [("\"#" ++ toString array ++ "\"", t)])
              else (array, inl ++ [("", t)])
            else (array, inl)
          (a.isEmpty, a, array, inl)
        else (false, v, array, inl)
      if skip then foLoop fu f rest length array inl
      else
        let f := writeKey (beginLine (formatComment f c.pre true)) key.literal length
        match formatValue fu f v with
        | none => none
        | some (f, some e) => some (f, some e, inl)
        | some (f, none) =>
          foLoop fu (endLine (formatComment f c.post false)) rest length array inl

/-- Call selector for the mutually recursive table-formatting functions
(`formatTable` with its tail and child loop, `formatOptions` with its
promoted-table loop), combined into the single fuel-indexed `formatTRec`
so that the kernel can evaluate them. -/
inductive TCall where
  | table : Node → List String → TCall
  | after : Node → List String → TCall
  | ftl : List Node → List String → TCall
  | options : List Node → List String → TCall
  | inl : List (String × Node) → List String → TCall

/-- The mutually recursive bodies of `formatTable` / `formatOptions`
(each `TCall` branch mirrors its Go function; see the named wrappers
below). -/
def formatTRec : Nat → TCall → Fmt → Option (Fmt × Option String)
  | 0, _, _ => none
  | fu + 1, c, f =>
    match c with
    | .table curr paths =>
      -- `func (f *Formatter) formatTable(curr *Table, paths []string)
      -- error`.  Note the two faithful error leaks: the `formatHeader`
      -- result is never read, and a `formatOptions` error triggers
      -- `return nil`.
      let options := listOptions curr
      if f.withEmpty ∨ 0 < options.length then
        let (f, _) := formatHeader f curr paths
        match formatTRec fu (.options options (paths ++ [(curr.keyOf).literal])) f with
        | none => none
        | some (f, some _e) => some (f, none)
        | some (f, none) => formatTRec fu (.after curr paths) (endLine f)
      else formatTRec fu (.after curr paths) f
    | .after curr paths =>
      -- tail of `formatTable` after the options block: paths extension,
      -- nesting level and the child-table walk
      let paths :=
        if ¬ curr.isRoot ∧ (curr.kindOf).isContainer then paths ++ [(curr.keyOf).literal]
        else paths
      let nest := canNest f curr
      let f := if nest then enterLevel f false else f
      match formatTRec fu (.ftl (listTables curr) paths) f with
      | none => none
      | some (f, err) => some ((if nest then leaveLevel f false else f), err)
    | .ftl ns paths =>
      -- child-table loop of `formatTable`
      match ns with
      | [] => some (f, none)
      | next :: rest =>
        match formatTRec fu (.table next paths) f with
        | none => none
        | some (f, some e) => some (f, some e)
        | some (f, none) => formatTRec fu (.ftl rest paths) f
    | .options options paths =>
      -- `func (f *Formatter) formatOptions(options []*Option,
      -- paths []string) error`
      match foLoop fu f options (longestKey options) 0 [] with
      | none => none
      | some (f, some e, _) => some (f, some e)
      | some (f, none, inlines) =>
        if inlines.length = 0 then some (f, none)
        else
          let f := enterLevel (endLine f) false
          match formatTRec fu (.inl inlines paths) f with
          | none => none
          | some (f, err) => some (leaveLevel f false, err)
    | .inl inlines paths =>
      -- promoted-table loop at the end of `formatOptions`
      match inlines with
      | [] => some (f, none)
      | (pfx, t) :: rest =>
        let parents := if pfx ≠ "" then paths ++ [pfx] else paths
        match formatTRec fu (.table t parents) f with
        | none => none
        | some (f, some e) => some (f, some e)
        | some (f, none) => formatTRec fu (.inl rest paths) f

/-- Go `func (f *Formatter) formatTable(curr *Table, paths []string) error`. -/
def formatTable (fu : Nat) (f : Fmt) (curr : Node) (paths : List String) :
    Option (Fmt × Option String) :=
  formatTRec fu (.table curr paths) f

/-- Go `func (f *Formatter) formatOptions(options []*Option, paths []string) error`. -/
def formatOptions (fu : Nat) (f : Fmt) (options : List Node) (paths : List String) :
    Option (Fmt × Option String) :=
  formatTRec fu (.options options paths) f

/-- Go `func (f *Formatter) Format(w io.Writer) error` (the buffered-writer
flush cannot fail on a string sink). -/
def Format (fu : Nat) (f : Fmt) (doc : Node) : Option (Except String String) :=
  match doc with
  | .tbl _ _ _ _ =>
    match formatTable fu f doc [] with
    | none => none
    | some (_, some e) => some (.error e)
    | some (f, none) => some (.ok f.out)
  | _ => some (.error "document not parsed properly")

/-- Children sorted ascending by `String()` key, the order `searchNodes`
relies on. -/
def sortedNodes (ns : List Node) : Prop :=
  List.Pairwise (fun a b : Node => a.str ≤ b.str) ns

/-- Parse result error message, if any. -/
def errOf (r : Option (Except String Node)) : Option String :=
  match r with
  | some (.error e) => some e
  | _ => none

/-- The `String()` keys of the children of the table at child path `p` of
a successful parse. -/
def childKeysAtPath (r : Option (Except String Node)) (p : List Nat) : Option (List String) :=
  match r with
  | some (.ok t) => (ptrGet t p).map (fun x => List.map Node.str x.nodesOf)
  | _ => none

/-- The table kind at child path `p` of a successful parse. -/
def kindAtPath (r : Option (Except String Node)) (p : List Nat) : Option TableType :=
  match r with
  | some (.ok t) => (ptrGet t p).map Node.kindOf
  | _ => none

/-- Parse a document and format the resulting tree. -/
def formatOfDoc (fu : Nat) (fm : Fmt) (doc : String) : Option (Except String String) :=
  match ParseDoc fu doc with
  | some (.ok t) => Format fu fm t
  | some (.error e) => some (.error e)
  | none => none

/-- Parse a document and run `formatOptions` on the root's options with
the root path (as `formatTable` would), keeping only the error slot. -/
def formatOptionsErrOfDoc (fu : Nat) (fm : Fmt) (doc : String) : Option (Option String) :=
  match ParseDoc fu doc with
  | some (.ok t) =>
    match formatOptions fu fm (listOptions t) [""] with
    | some (_, err) => some err
    | none => none
  | _ => none

/-- Go `(type, literal)` projection of the scanned token stream. -/
def tokensOfDoc (fu : Nat) (doc : String) : Option (List (Int × String)) :=
  (scanTokens fu doc).map (List.map (fun t => (t.type, t.literal)))

/-- The scanner state at the backslash of the escape in
`x = "\U000000e9"`: position 5 consumed, current rune the backslash. -/
def escPanicState : Scanner :=
  { input := ("x = \"\\U000000e9\"\n").data, pos := 5, next := 6, char := '\\',
    line := 1, column := 6 }

end Toml

namespace ModeScan

theorem readRune_buffer (s : Scanner) : (readRune s).buffer = s.buffer := by
  unfold readRune
  split
  · rfl
  · dsimp only
    split <;> rfl

theorem runeAt_ne10 (buf : List Int) (i : Int) (h : ∀ c ∈ buf, c ≠ 10) :
    runeAt buf i ≠ 10 := by
  unfold runeAt
  split
  · decide
  · rcases h' : buf.get? i.toNat with _ | c
    · rw [List.getD_eq_getElem?_getD, ← List.get?_eq_getElem?, h']
      decide
    · rw [List.getD_eq_getElem?_getD, ← List.get?_eq_getElem?, h']
      exact h c (List.get?_mem h')

theorem readRune_char_cases (s : Scanner) :
    (readRune s).char = EOF ∨ (readRune s).char = runeAt s.buffer s.next := by
  unfold readRune
  split
  · left; rfl
  · dsimp only
    split
    · right; rfl
    · right; rfl

theorem readRune_char_ne10 (s : Scanner) (h : ∀ c ∈ s.buffer, c ≠ 10) :
    (readRune s).char ≠ 10 := by
  rcases readRune_char_cases s with h' | h' <;> rw [h']
  · decide
  · exact runeAt_ne10 s.buffer s.next h

theorem skipWith_inv (is : Int → Bool) (P : Scanner → Prop)
    (hP : ∀ s, P s → P (readRune s)) :
    ∀ (f : Nat) (s s' : Scanner), skipWith is f s = some s' → P s → P s' := by
  intro f
  induction f with
  | zero => intro s s' h; exact absurd h (by simp [skipWith])
  | succ f ih =>
    intro s s' h hs
    unfold skipWith at h
    split at h
    · exact ih _ _ h (hP s hs)
    · cases h; exact hs

theorem commentLoop_none :
    ∀ (f : Nat) (off : Int) (s : Scanner),
      (∀ c ∈ s.buffer, c ≠ 10) → s.char ≠ 10 → commentLoop f off s = none := by
  intro f
  induction f with
  | zero => intro off s _ _; rfl
  | succ f ih =>
    intro off s h hc
    unfold commentLoop
    rw [if_neg (by simp [isNewline, newline, hc])]
    exact ih _ _ (by rw [readRune_buffer]; exact h) (readRune_char_ne10 s h)

theorem scanComment_none (f : Nat) (t : Token) (s : Scanner)
    (h : ∀ c ∈ s.buffer, c ≠ 10) : scanComment f t s = none := by
  unfold scanComment
  dsimp only
  rcases hsb : skipBlank f (readRune s) with _ | s₁
  · rfl
  · have hinv : s₁.buffer = s.buffer ∧ s₁.char ≠ 10 := by
      refine skipWith_inv isBlank (fun x => x.buffer = s.buffer ∧ x.char ≠ 10) ?_ f _ _ hsb ?_
      · intro x hx
        exact ⟨by rw [readRune_buffer]; exact hx.1,
               readRune_char_ne10 x (by rw [hx.1]; exact h)⟩
      · exact ⟨readRune_buffer s, readRune_char_ne10 s h⟩
    simp only [Option.bind_eq_bind, Option.some_bind]
    rw [commentLoop_none f 0 s₁ (by rw [hinv.1]; exact h) hinv.2]
    rfl

theorem initScanner_commentDoc (f : Nat) :
    initScanner (f + 1) "# comment" = some commentDocState := by
  show skipWith isNewline (f + 1) commentDocState = some commentDocState
  simp only [skipWith]
  rw [if_neg (by decide)]

theorem Scan_commentDocState_none : ∀ f : Nat, Scan f commentDocState = none := by
  intro f
  match f with
  | 0 => rfl
  | 1 => rfl
  | (f + 2) =>
    unfold Scan
    rw [if_neg (by decide)]
    dsimp only
    have hsb : skipBlank (f + 1) commentDocState = some commentDocState := by
      show skipWith isBlank (f + 1) commentDocState = some commentDocState
      simp only [skipWith]
      rw [if_neg (by decide)]
    rw [hsb]
    simp only [Option.bind_eq_bind, Option.some_bind]
    rw [show switchMode commentDocState = commentDocState from rfl]
    rw [if_pos (by decide : isComment commentDocState.char = true)]
    rw [scanComment_none (f + 1) {} commentDocState (by decide)]
    rfl

theorem scanTimezone_type (t : Token) (s : Scanner) :
    (scanTimezone t s).1.type = t.type ∨ (scanTimezone t s).1.type = Illegal := by
  unfold scanTimezone
  dsimp only
  split
  · right; rfl
  · left; rfl

theorem scanMillis_type (f : Nat) (t : Token) (s : Scanner) (t' : Token) (s' : Scanner)
    (h : scanMillis f t s = some (t', s')) : t'.type = t.type ∨ t'.type = Illegal := by
  unfold scanMillis at h
  dsimp only at h
  rcases hml : scanMillisLoop f 1 (readRune s) with _ | ⟨off, s₂⟩ <;> rw [hml] at h
  · cases h
  · simp only [Option.bind_eq_bind, Option.some_bind, Option.some.injEq, Prod.mk.injEq] at h
    rw [← h.1]
    split
    · right; rfl
    · left; rfl

theorem scanTime_type (f : Nat) (t : Token) (s : Scanner) (t' : Token) (s' : Scanner)
    (h : scanTime f t s = some (t', s')) : t'.type = Time ∨ t'.type = Illegal := by
  unfold scanTime at h
  dsimp only at h
  set s1 := if s.char ≠ colon then readRuneN 3 s else s with hs1
  split at h
  · simp only [Option.some.injEq, Prod.mk.injEq] at h
    rw [← h.1]; right; rfl
  · set s2 := readRuneN 3 s1 with hs2
    split at h
    · simp only [Option.some.injEq, Prod.mk.injEq] at h
      rw [← h.1]; right; rfl
    · set s3 := readRuneN 3 s2 with hs3
      split at h
      · rcases hm : scanMillis f { t with type := Time } s3 with _ | ⟨t₂, s₄⟩ <;> rw [hm] at h
        · cases h
        · simp only [Option.bind_eq_bind, Option.some_bind, Option.some.injEq,
            Prod.mk.injEq] at h
          rcases scanMillis_type _ _ _ _ _ hm with h2 | h2 <;> rw [← h.1]
          · left; exact h2
          · right; exact h2
      · simp only [Option.bind_eq_bind, Option.some_bind, Option.some.injEq,
          Prod.mk.injEq] at h
        rw [← h.1]; left; rfl

theorem scanDate_type (f : Nat) (t : Token) (s : Scanner) (t' : Token) (s' : Scanner)
    (h : scanDate f t s = some (t', s')) :
    t'.type = Date ∨ t'.type = DateTime ∨ t'.type = Illegal := by
  unfold scanDate at h
  dsimp only at h
  split at h
  · simp only [Option.some.injEq, Prod.mk.injEq] at h
    rw [← h.1]; right; right; rfl
  · split at h
    · rcases ht : scanTime f { t with type := Date } _ with _ | ⟨t₂, s₂⟩ <;> rw [ht] at h
      · cases h
      · simp only [Option.bind_eq_bind, Option.some_bind] at h
        have htz : ∀ t₃ : Token, t₃.type = Time ∨ t₃.type = Illegal →
            ∀ p : Token × Scanner,
              p = (if s₂.char = 90 then (t₃, s₂)
                   else if s₂.char = plus ∨ s₂.char = minus then scanTimezone t₃ s₂
                   else (t₃, s₂)) →
              p.1.type = Time ∨ p.1.type = Illegal := by
          intro t₃ h3 p hp
          rw [hp]
          split
          · exact h3
          · split
            · rcases scanTimezone_type t₃ s₂ with h4 | h4
              · rw [h4]; exact h3
              · right; exact h4
            · exact h3
        set q := (if s₂.char = 90 then (t₂, s₂)
                  else if s₂.char = plus ∨ s₂.char = minus then scanTimezone t₂ s₂
                  else (t₂, s₂)) with hq
        have h5 := htz t₂ (scanTime_type _ _ _ _ _ ht) q hq
        simp only [Option.some.injEq, Prod.mk.injEq] at h
        rcases h with ⟨h6, _⟩
        rw [← h6]
        split
        · right; left; rfl
        · rename_i hne
          right; right
          simpa using hne
    · split at h
      · simp only [Option.some.injEq, Prod.mk.injEq] at h
        rw [← h.1]; left; rfl
      · simp only [Option.some.injEq, Prod.mk.injEq] at h
        rw [← h.1]; right; right; rfl

theorem expLoop_type (f : Nat) :
    ∀ (t : Token) (prev : Int) (s : Scanner) (t' : Token) (s' : Scanner),
      expLoop f t prev s = some (t', s') → t'.type = t.type ∨ t'.type = Illegal := by
  induction f with
  | zero => intro t prev s t' s' h; cases h
  | succ f ih =>
    intro t prev s t' s' h
    unfold expLoop at h
    dsimp only at h
    split at h
    · simp only [Option.some.injEq, Prod.mk.injEq] at h
      rw [← h.1]; right; rfl
    · split at h
      · simp only [Option.some.injEq, Prod.mk.injEq] at h
        rw [← h.1]; right; rfl
      · split at h
        · simp only [Option.some.injEq, Prod.mk.injEq] at h
          rw [← h.1]; left; rfl
        · exact ih _ _ _ _ _ h

theorem scanExponent_type (f : Nat) (t : Token) (s : Scanner) (t' : Token) (s' : Scanner)
    (h : scanExponent f t s = some (t', s')) :
    t'.type = FloatTok ∨ t'.type = Illegal := by
  unfold scanExponent at h
  exact expLoop_type f _ _ _ _ _ h

theorem fracLoop_type (f : Nat) :
    ∀ (t : Token) (prev : Int) (s : Scanner) (t' : Token) (s' : Scanner),
      fracLoop f t prev s = some (t', s') →
      t.type = FloatTok ∨ t.type = Illegal → t'.type = FloatTok ∨ t'.type = Illegal := by
  induction f with
  | zero => intro t prev s t' s' h; cases h
  | succ f ih =>
    intro t prev s t' s' h ht
    unfold fracLoop at h
    split at h
    · exact ih _ _ _ _ _ h ht
    · split at h
      · split at h
        · simp only [Option.some.injEq, Prod.mk.injEq] at h
          rw [← h.1]; right; rfl
        · exact ih _ _ _ _ _ h ht
      · split at h
        · rcases he : scanExponent f t s with _ | ⟨t₂, s₂⟩ <;> rw [he] at h
          · cases h
          · simp only [Option.bind_eq_bind, Option.some_bind] at h
            exact ih _ _ _ _ _ h (scanExponent_type _ _ _ _ _ he)
        · split at h
          · simp only [Option.some.injEq, Prod.mk.injEq] at h
            rw [← h.1]; exact ht
          · exact ih _ _ _ _ _ h (Or.inr rfl)

theorem scanFraction_type (f : Nat) (t : Token) (s : Scanner) (t' : Token) (s' : Scanner)
    (h : scanFraction f t s = some (t', s')) :
    t'.type = FloatTok ∨ t'.type = Illegal := by
  unfold scanFraction at h
  exact fracLoop_type f _ _ _ _ _ h (Or.inl rfl)

theorem numLoop_type (f : Nat) :
    ∀ (signed : Bool) (t : Token) (prev : Int) (s : Scanner) (t' : Token) (s' : Scanner),
      numLoop f signed t prev s = some (t', s') → numTy signed t.type →
      numTy signed t'.type := by
  induction f with
  | zero => intro signed t prev s t' s' h; cases h
  | succ f ih =>
    intro signed t prev s t' s' h ht
    unfold numLoop at h
    split at h
    · simp only [Option.some.injEq, Prod.mk.injEq] at h
      rw [← h.1]; exact ht
    · split at h
      · exact ih _ _ _ _ _ _ h ht
      · split at h
        · refine ih _ _ _ _ _ _ h ?_
          split
          · right; right; left; rfl
          · exact ht
        · split at h
          · rcases hf : scanFraction f t s with _ | ⟨t₂, s₂⟩ <;> rw [hf] at h
            · cases h
            · simp only [Option.bind_eq_bind, Option.some_bind] at h
              refine ih _ _ _ _ _ _ h ?_
              rcases scanFraction_type _ _ _ _ _ hf with h2 | h2
              · right; left; exact h2
              · right; right; left; exact h2
          · split at h
            · rcases he : scanExponent f t s with _ | ⟨t₂, s₂⟩ <;> rw [he] at h
              · cases h
              · simp only [Option.bind_eq_bind, Option.some_bind] at h
                refine ih _ _ _ _ _ _ h ?_
                rcases scanExponent_type _ _ _ _ _ he with h2 | h2
                · right; left; exact h2
                · right; right; left; exact h2
            · split at h
              · rcases hd : scanDate f t s with _ | ⟨t₂, s₂⟩ <;> rw [hd] at h
                · cases h
                · simp only [Option.bind_eq_bind, Option.some_bind] at h
                  cases signed with
                  | false =>
                    rw [if_neg (by simp)] at h
                    refine ih _ _ _ _ _ _ h ?_
                    rcases scanDate_type _ _ _ _ _ hd with h2 | h2 | h2
                    · right; right; right; exact ⟨rfl, Or.inl h2⟩
                    · right; right; right; exact ⟨rfl, Or.inr (Or.inl h2)⟩
                    · right; right; left; exact h2
                  | true =>
                    rw [if_pos rfl] at h
                    refine ih _ _ _ _ _ _ h ?_
                    right; right; left; rfl
              · split at h
                · rcases hd : scanTime f t s with _ | ⟨t₂, s₂⟩ <;> rw [hd] at h
                  · cases h
                  · simp only [Option.bind_eq_bind, Option.some_bind] at h
                    cases signed with
                    | false =>
                      rw [if_neg (by simp)] at h
                      refine ih _ _ _ _ _ _ h ?_
                      rcases scanTime_type _ _ _ _ _ hd with h2 | h2
                      · right; right; right; exact ⟨rfl, Or.inr (Or.inr h2)⟩
                      · right; right; left; exact h2
                    | true =>
                      rw [if_pos rfl] at h
                      refine ih _ _ _ _ _ _ h ?_
                      right; right; left; rfl
                · exact ih _ _ _ _ _ _ h (Or.inr (Or.inr (Or.inl rfl)))

theorem scanNumber_type (f : Nat) (t : Token) (signed : Bool) (s : Scanner)
    (t' : Token) (s' : Scanner) (h : scanNumber f t signed s = some (t', s')) :
    numTy signed t'.type := by
  unfold scanNumber at h
  dsimp only at h
  rcases hz : zerosLoop f 0 _ with _ | ⟨zeros, s₂⟩ <;> rw [hz] at h
  · cases h
  · simp only [Option.bind_eq_bind, Option.some_bind] at h
    split at h
    · simp only [Option.some.injEq, Prod.mk.injEq] at h
      rw [← h.1]
      dsimp only
      split
      · right; right; left; rfl
      · left; rfl
    · rcases hl : numLoop f signed { t with type := Integer } s₂.char s₂
          with _ | ⟨t₂, s₃⟩ <;> rw [hl] at h
      · cases h
      · simp only [Option.bind_eq_bind, Option.some_bind, Option.some.injEq,
          Prod.mk.injEq] at h
        have h2 := numLoop_type f signed _ _ _ _ _ hl (Or.inl rfl)
        rw [← h.1]
        dsimp only
        split
        · right; right; left; rfl
        · exact h2

theorem scanComment_type (f : Nat) (t : Token) (s : Scanner) (t' : Token) (s' : Scanner)
    (h : scanComment f t s = some (t', s')) : t'.type = Comment := by
  unfold scanComment at h
  dsimp only at h
  rw [Option.bind_eq_bind, Option.bind_eq_some] at h
  obtain ⟨s₁, _, h⟩ := h
  rw [Option.bind_eq_bind, Option.bind_eq_some] at h
  obtain ⟨⟨off, s₂⟩, _, h⟩ := h
  simp only [Option.some.injEq, Prod.mk.injEq] at h
  rw [← h.1]

theorem scanNumberWith_type (f : Nat) (t : Token) (accept : Int → Bool) (s : Scanner)
    (t' : Token) (s' : Scanner) (h : scanNumberWith f t accept s = some (t', s')) :
    t'.type = Integer := by
  unfold scanNumberWith at h
  dsimp only at h
  rw [Option.bind_eq_bind, Option.bind_eq_some] at h
  obtain ⟨⟨t₂, s₂⟩, _, h⟩ := h
  simp only [Option.some.injEq, Prod.mk.injEq] at h
  rw [← h.1]

theorem strLoop_early_type (f : Nat) :
    ∀ (quote : Int) (t : Token) (buf : String) (s : Scanner) (t' : Token) (s' : Scanner),
      strLoop f quote t buf s = some (.early t' s') → t'.type = Illegal := by
  induction f with
  | zero => intro quote t buf s t' s' h; cases h
  | succ f ih =>
    intro quote t buf s t' s' h
    unfold strLoop at h
    split at h
    · simp at h
    · split at h
      · dsimp only at h
        split at h
        · rw [Option.bind_eq_bind, Option.bind_eq_some] at h
          obtain ⟨s₁, _, h⟩ := h
          exact ih _ _ _ _ _ _ h
        · split at h
          · simp only [Option.some.injEq, StrRes.early.injEq] at h
            rw [← h.1]
          · split at h
            · simp only [Option.some.injEq, StrRes.early.injEq] at h
              rw [← h.1]
            · exact ih _ _ _ _ _ _ h
      · split at h
        · simp only [Option.some.injEq, StrRes.early.injEq] at h
          rw [← h.1]
        · exact ih _ _ _ _ _ _ h

theorem scanStringTail_type (f : Nat) (quote : Int) (t : Token) (multi : Bool)
    (s : Scanner) (t' : Token) (s' : Scanner)
    (h : scanStringTail f quote t multi s = some (t', s')) :
    t'.type = t.type ∨ t'.type = Illegal := by
  unfold scanStringTail at h
  rw [Option.bind_eq_bind, Option.bind_eq_some] at h
  obtain ⟨res, hres, h⟩ := h
  cases res with
  | early t₂ s₂ =>
    simp only [Option.some.injEq, Prod.mk.injEq] at h
    rw [← h.1]
    right
    exact strLoop_early_type f _ _ _ _ _ _ hres
  | done buf s₂ =>
    dsimp only at h
    split at h <;> split at h <;>
      simp only [Option.some.injEq, Prod.mk.injEq] at h
    · rw [← h.1]; right; rfl
    · rw [← h.1]; left; rfl
    · rw [← h.1]; right; rfl
    · rw [← h.1]; left; rfl

theorem scanString_type (f : Nat) (t : Token) (s : Scanner) (t' : Token) (s' : Scanner)
    (h : scanString f t s = some (t', s')) :
    t'.type = StringTok ∨ t'.type = Illegal := by
  unfold scanString at h
  dsimp only at h
  have tail : ∀ (m : Bool) (X : Scanner),
      scanStringTail f s.char { t with type := StringTok } m X = some (t', s') →
      t'.type = StringTok ∨ t'.type = Illegal := by
    intro m X hX
    exact scanStringTail_type _ _ _ _ _ _ _ hX
  split at h
  · split at h
    · simp only [Option.bind_eq_bind, Option.some_bind] at h
      split at h
      · simp only [Option.some.injEq, Prod.mk.injEq] at h
        rw [← h.1]; left; rfl
      · exact absurd trivial ‹_›
    · split at h
      · simp only [Option.bind_eq_bind, Option.some_bind] at h
        split at h
        · rename_i hc
          exact absurd hc (by decide)
        · exact tail _ _ h
      · simp only [Option.bind_eq_bind, Option.some_bind] at h
        split at h
        · rename_i hc
          exact absurd hc (by decide)
        · exact tail _ _ h
  · simp only [Option.bind_eq_bind, Option.some_bind] at h
    split at h
    · rename_i hc
      exact absurd hc (by decide)
    · exact tail _ _ h

theorem scanIdent_type (f : Nat) (t : Token) (s : Scanner) (t' : Token) (s' : Scanner)
    (h : scanIdent f t s = some (t', s')) :
    t'.type = Ident ∨ t'.type = BoolTok ∨ t'.type = FloatTok := by
  unfold scanIdent at h
  dsimp only at h
  rw [Option.bind_eq_bind, Option.bind_eq_some] at h
  obtain ⟨⟨off, s₁⟩, _, h⟩ := h
  simp only [Option.some.injEq, Prod.mk.injEq] at h
  rw [← h.1]
  dsimp only
  split
  · left; rfl
  · split
    · right; left; rfl
    · split
      · right; right; rfl
      · left; rfl

theorem isPunct_ne_eof (r : Int) (h : isPunct r = true) : r ≠ EOF := by
  simp only [isPunct, Bool.or_eq_true, decide_eq_true_eq] at h
  rcases h with h | h | h | h | h | h | h <;> rw [h] <;> decide

theorem numTy_ne_eof (signed : Bool) (x : Int) (h : numTy signed x) : x ≠ EOF := by
  rcases h with h | h | h | ⟨_, h | h | h⟩ <;> rw [h] <;> decide

/-- Once the buffer is exhausted (`s.char == EOF`), `Scan` immediately
returns the EOF token and leaves the state untouched. -/
theorem Scan_eof_now (s : Scanner) (f : Nat) (h : s.char = EOF) :
    Scan (f + 1) s = some ({ literal := "", type := EOF, pos := {} }, s) := by
  unfold Scan
  rw [if_pos h]

/-- Whenever `Scan` returns an EOF-typed token, that token is the zero EOF
token and the resulting state has `char = EOF`. -/
theorem Scan_eof_type (f : Nat) :
    ∀ (s : Scanner) (t : Token) (s' : Scanner), Scan f s = some (t, s') → t.type = EOF →
      t = { literal := "", type := EOF, pos := {} } ∧ s'.char = EOF := by
  induction f with
  | zero => intro s t s' h; cases h
  | succ f ih =>
    intro s t s' h hEOF
    unfold Scan at h
    split at h
    · simp only [Option.some.injEq, Prod.mk.injEq] at h
      refine ⟨by rw [← h.1], by rw [← h.2]; assumption⟩
    · dsimp only at h
      rw [Option.bind_eq_bind, Option.bind_eq_some] at h
      obtain ⟨s₁, _, h⟩ := h
      split at h
      · rw [Option.bind_eq_bind, Option.bind_eq_some] at h
        obtain ⟨⟨tc, s₂⟩, hsc, h⟩ := h
        split at h
        · exact ih _ _ _ h hEOF
        · exfalso
          simp only [Option.some.injEq, Prod.mk.injEq] at h
          rw [← h.1] at hEOF
          have h2 := scanComment_type _ _ _ _ _ hsc
          dsimp only at hEOF
          rw [h2] at hEOF
          exact absurd hEOF (by decide)
      · split at h
        · split at h
          · exact ih _ _ _ h hEOF
          · exfalso
            simp only [Option.some.injEq, Prod.mk.injEq] at h
            rw [← h.1] at hEOF
            dsimp only at hEOF
            exact absurd hEOF (by decide)
        · exfalso
          split at h
          · rw [Option.bind_eq_bind, Option.bind_eq_some] at h
            obtain ⟨⟨t₂, s₂⟩, hm, h⟩ := h
            simp only [Option.some.injEq, Prod.mk.injEq] at h
            rw [← h.1] at hEOF
            dsimp only at hEOF
            rcases scanIdent_type _ _ _ _ _ hm with h3 | h3 | h3 <;> rw [h3] at hEOF <;>
              exact absurd hEOF (by decide)
          · split at h
            · split at h
              · split at h
                · rw [Option.bind_eq_bind, Option.bind_eq_some] at h
                  obtain ⟨⟨t₂, s₂⟩, hm, h⟩ := h
                  simp only [Option.some.injEq, Prod.mk.injEq] at h
                  rw [← h.1] at hEOF
                  dsimp only at hEOF
                  rw [scanNumberWith_type _ _ _ _ _ _ hm] at hEOF
                  exact absurd hEOF (by decide)
                · rw [Option.bind_eq_bind, Option.bind_eq_some] at h
                  obtain ⟨⟨t₂, s₂⟩, hm, h⟩ := h
                  simp only [Option.some.injEq, Prod.mk.injEq] at h
                  rw [← h.1] at hEOF
                  dsimp only at hEOF
                  exact numTy_ne_eof _ _ (scanNumber_type _ _ _ _ _ _ hm) hEOF
              · rw [Option.bind_eq_bind, Option.bind_eq_some] at h
                obtain ⟨⟨t₂, s₂⟩, hm, h⟩ := h
                simp only [Option.some.injEq, Prod.mk.injEq] at h
                rw [← h.1] at hEOF
                dsimp only at hEOF
                exact numTy_ne_eof _ _ (scanNumber_type _ _ _ _ _ _ hm) hEOF
            · split at h
              · rw [Option.bind_eq_bind, Option.bind_eq_some] at h
                obtain ⟨⟨t₂, s₂⟩, hm, h⟩ := h
                simp only [Option.some.injEq, Prod.mk.injEq] at h
                rw [← h.1] at hEOF
                dsimp only at hEOF
                rcases scanString_type _ _ _ _ _ hm with h3 | h3 <;> rw [h3] at hEOF <;>
                  exact absurd hEOF (by decide)
              · split at h
                · simp only [Option.bind_eq_bind, Option.some_bind, Option.some.injEq,
                    Prod.mk.injEq] at h
                  rw [← h.1] at hEOF
                  dsimp only at hEOF
                  rename_i hp
                  exact isPunct_ne_eof _ hp hEOF
                · simp only [Option.bind_eq_bind, Option.some_bind, Option.some.injEq,
                    Prod.mk.injEq] at h
                  rw [← h.1] at hEOF
                  dsimp only at hEOF
                  exact absurd hEOF (by decide)

/-- C6: in value context a leading `+` or `-` sign sends `Scan` through
`scanNumber(t, signed=true)`, whose date and time branches overwrite the
token type with Illegal whenever `signed` holds; hence a signed date or
time literal is never scanned as a Date, Time or Datetime token, and the
concrete documents `x = -1979-05-27` and `x = +07:32:00` produce an
Illegal value token. -/
theorem claim_C6_signed_dates_times_are_illegal :
    (∀ (f : Nat) (t : Token) (s : Scanner) (t' : Token) (s' : Scanner),
        scanNumber f t true s = some (t', s') →
        t'.type ≠ Date ∧ t'.type ≠ Time ∧ t'.type ≠ DateTime) ∧
    tokenTypes 100 "x = -1979-05-27\n" = some [Ident, equal, Illegal, Newline] ∧
    tokenLits 100 "x = -1979-05-27\n" = some ["x", "", "-1979-05-27", ""] ∧
    tokenTypes 100 "x = +07:32:00\n" = some [Ident, equal, Illegal, Newline] ∧
    tokenLits 100 "x = +07:32:00\n" = some ["x", "", "07:32:00", ""] := by
  refine ⟨?_, by decide, by decide, by decide, by decide⟩
  intro f t s t' s' h
  rcases scanNumber_type f t true s t' s' h with h2 | h2 | h2 | ⟨h3, _⟩
  · rw [h2]; exact ⟨by decide, by decide, by decide⟩
  · rw [h2]; exact ⟨by decide, by decide, by decide⟩
  · rw [h2]; exact ⟨by decide, by decide, by decide⟩
  · cases h3

/-- Witness for C6: an instance of the signed-`scanNumber` theorem at a
concrete scanner state. -/
theorem claim_C6_signed_dates_times_are_illegal_witness :
    ({ literal := "-1", type := Integer, pos := {} } : Token).type ≠ Date ∧
    ({ literal := "-1", type := Integer, pos := {} } : Token).type ≠ Time ∧
    ({ literal := "-1", type := Integer, pos := {} } : Token).type ≠ DateTime :=
  claim_C6_signed_dates_times_are_illegal.1 10 {} signedNumState
    { literal := "-1", type := Integer, pos := {} }
    { buffer := [45, 49, 10], pos := 1, next := 2, mode := 1, stack := 0, char := 49,
      keepComment := false, keepMultiline := false, line := 1, column := 2, rowlen := 2 }
    (by decide)

/-- C9 counterexample: the claim says `inf`/`nan` with an optional leading
sign are Float tokens in value mode.  For `x = +inf` this scanner routes
the signed value through `scanNumber`, which rejects the letter `i`: the
output is an Illegal token (literal `i`) followed by an Ident token `nf`,
and no Float token is produced. -/
theorem claim_C9_counterexample_signed_inf :
    tokenTypes 100 "x = +inf\n" = some [Ident, equal, Illegal, Ident, Newline] ∧
    tokenLits 100 "x = +inf\n" = some ["x", "", "i", "nf", ""] ∧
    Illegal ≠ FloatTok ∧ Ident ≠ FloatTok :=
  ⟨by decide, by decide, by decide, by decide⟩

/-- C9 amended: tokenisation is mode-dependent: in Key mode `1979-05-27`
and `inf`/`nan` are single identifier tokens, in Value mode `1979-05-27`
is a Date token and unsigned `inf`/`nan` are Float tokens; `inf`/`nan`
with a leading sign, however, are not Float tokens but scan as an Illegal
token followed by an identifier. -/
theorem claim_C9_amended_mode_disambiguation :
    tokenTypes 100 "1979-05-27 = 1\n" = some [Ident, equal, Integer, Newline] ∧
    tokenLits 100 "1979-05-27 = 1\n" = some ["1979-05-27", "", "1", ""] ∧
    tokenTypes 100 "x = 1979-05-27\n" = some [Ident, equal, Date, Newline] ∧
    tokenLits 100 "x = 1979-05-27\n" = some ["x", "", "1979-05-27", ""] ∧
    tokenTypes 100 "inf = 1\n" = some [Ident, equal, Integer, Newline] ∧
    tokenLits 100 "inf = 1\n" = some ["inf", "", "1", ""] ∧
    tokenTypes 100 "nan = 1\n" = some [Ident, equal, Integer, Newline] ∧
    tokenTypes 100 "x = inf\n" = some [Ident, equal, FloatTok, Newline] ∧
    tokenTypes 100 "x = nan\n" = some [Ident, equal, FloatTok, Newline] ∧
    tokenTypes 100 "x = +inf\n" = some [Ident, equal, Illegal, Ident, Newline] ∧
    tokenTypes 100 "x = -nan\n" = some [Ident, equal, Illegal, Ident, Newline] :=
  ⟨by decide, by decide, by decide, by decide, by decide, by decide, by decide,
   by decide, by decide, by decide, by decide⟩

/-- C10: once the input is exhausted (`s.char == EOF`), `Scan` returns the
zero EOF token (empty literal) without touching the state, so every
further call — arbitrarily many — again returns EOF; and whenever `Scan`
returns an EOF-typed token, the literal is empty and the resulting state
is exhausted, so the same holds from then on. -/
theorem claim_C10_eof_is_absorbing :
    (∀ (s : Scanner) (f : Nat), s.char = EOF →
        Scan (f + 1) s = some ({ literal := "", type := EOF, pos := {} }, s)) ∧
    (∀ (f : Nat) (s : Scanner) (t : Token) (s' : Scanner),
        Scan f s = some (t, s') → t.type = EOF →
        t.literal = "" ∧ s'.char = EOF ∧ ∀ g : Nat, Scan (g + 1) s' = some (t, s')) := by
  constructor
  · exact fun s f h => Scan_eof_now s f h
  · intro f s t s' h hEOF
    obtain ⟨ht, hs⟩ := Scan_eof_type f s t s' h hEOF
    refine ⟨by rw [ht], hs, ?_⟩
    intro g
    rw [ht]
    exact Scan_eof_now s' g hs

/-- Witness for C10 at the exhausted state of the empty document. -/
theorem claim_C10_eof_is_absorbing_witness :
    Scan 3 eofState = some ({ literal := "", type := EOF, pos := {} }, eofState) :=
  claim_C10_eof_is_absorbing.1 eofState 2 (by decide)

/-- C8: the claim says `Scan` terminates on every finite input, in
particular on a comment that reaches end-of-input without a trailing
newline.  In the code the comment loop
`for !isNewline(s.char) { s.readRune(); ... }` never tests for EOF and
`readRune` no longer advances once the buffer is exhausted, so scanning
the document `"# comment"` (no trailing newline) loops forever: no amount
of fuel makes the token stream of that document terminate. -/
theorem claim_C8_scan_diverges_on_comment_at_eof :
    ∀ f : Nat, ModeScan.tokenTypes f "# comment" = none := by
  intro f
  match f with
  | 0 => rfl
  | (f + 1) =>
    unfold ModeScan.tokenTypes
    rw [initScanner_commentDoc f]
    simp only [Option.bind_eq_bind, Option.some_bind]
    unfold scanAll
    rw [Scan_commentDocState_none (f + 1)]
    rfl

end ModeScan

namespace Toml

/-- Go `sort.Search` bisection invariant: for a monotone predicate the
result is the least index satisfying it (or the upper bound). -/
theorem searchLoop_spec (pred : Nat → Bool) (n : Nat)
    (mono : ∀ a b, a ≤ b → b < n → pred a = true → pred b = true) :
    ∀ d i j, j - i ≤ d → i ≤ j → j ≤ n → (∀ k, k < i → pred k = false) →
      i ≤ searchLoop pred d i j ∧ searchLoop pred d i j ≤ j ∧
      (∀ k, k < searchLoop pred d i j → pred k = false) ∧
      (searchLoop pred d i j < j → pred (searchLoop pred d i j) = true) := by
  intro d
  induction d with
  | zero =>
    intro i j hd hij _ hlo
    have hji : i = j := by omega
    subst hji
    simp only [searchLoop]
    exact ⟨le_refl _, le_refl _, hlo, fun hc => absurd hc (by omega)⟩
  | succ d ih =>
    intro i j hd hij hjn hlo
    simp only [searchLoop]
    by_cases hij2 : i < j
    · rw [if_pos hij2]
      by_cases hp : pred ((i + j) / 2) = true
      · rw [if_pos hp]
        obtain ⟨h1, h2, h3, h4⟩ := ih i ((i + j) / 2) (by omega) (by omega) (by omega) hlo
        refine ⟨h1, by omega, h3, fun hr => ?_⟩
        rcases lt_or_eq_of_le h2 with h | h
        · exact h4 h
        · rw [h]; exact hp
      · rw [if_neg hp]
        have hlo2 : ∀ k, k < (i + j) / 2 + 1 → pred k = false := by
          intro k hk
          by_cases hki : k < i
          · exact hlo k hki
          · cases hpk : pred k with
            | false => rfl
            | true =>
              exact absurd (mono k ((i + j) / 2) (by omega) (by omega) hpk)
                (by simp [hp])
        obtain ⟨h1, h2, h3, h4⟩ := ih ((i + j) / 2 + 1) j (by omega) (by omega) hjn hlo2
        exact ⟨by omega, h2, h3, h4⟩
    · rw [if_neg hij2]
      exact ⟨le_refl _, hij, hlo, fun hc => absurd hc (by omega)⟩

/-- A sorted child list has monotone keys at in-range indices. -/
theorem sortedNodes_mono (ns : List Node) (h : sortedNodes ns) :
    ∀ a b, a ≤ b → b < ns.length →
      ((ns.getD a dfltNode).str) ≤ ((ns.getD b dfltNode).str) := by
  intro a b hab hb
  rcases eq_or_lt_of_le hab with h1 | h1
  · subst h1; exact le_refl _
  · have ha : a < ns.length := lt_trans h1 hb
    rw [List.getD_eq_getElem ns dfltNode ha, List.getD_eq_getElem ns dfltNode hb]
    exact (List.pairwise_iff_getElem.mp h) a b ha hb h1

/-- Go `chListLe` decides the negated lexicographic order in the other
direction. -/
theorem chListLe_iff :
    ∀ as bs : List Char, chListLe as bs = true ↔ ¬ List.Lex (· < ·) bs as := by
  intro as
  induction as with
  | nil =>
    intro bs
    simp only [chListLe]
    refine ⟨fun _ h => ?_, fun _ => trivial⟩
    cases h
  | cons a as ih =>
    intro bs
    cases bs with
    | nil =>
      simp only [chListLe]
      constructor
      · intro h
        cases h
      · intro h
        exact absurd List.Lex.nil h
    | cons b bs =>
      simp only [chListLe]
      by_cases hab : a < b
      · rw [if_pos hab]
        refine ⟨fun _ h => ?_, fun _ => rfl⟩
        cases h with
        | rel h2 => exact absurd h2 (lt_asymm hab)
        | cons h2 => exact absurd hab (lt_irrefl a)
      · rw [if_neg hab]
        by_cases hba : b < a
        · rw [if_pos hba]
          constructor
          · intro h
            cases h
          · intro h
            exact absurd (List.Lex.rel hba) h
        · rw [if_neg hba]
          have hEq : b = a := le_antisymm (not_lt.mp hab) (not_lt.mp hba)
          subst hEq
          rw [ih bs]
          constructor
          · intro h hlt
            cases hlt with
            | rel h2 => exact absurd h2 (lt_irrefl b)
            | cons h2 => exact h h2
          · intro h h2
            exact h (List.Lex.cons h2)

/-- Go `goStrLe` computes the library order on `String`. -/
theorem goStrLe_iff (a b : String) : goStrLe a b = true ↔ a ≤ b := by
  rw [goStrLe, chListLe_iff]
  rw [← not_lt (a := b) (b := a)]
  exact not_congr (Iff.symm String.lt_iff_toList_lt)

/-- Go `searchNodes` on a sorted list: least index whose key is ≥ the probe. -/
theorem searchNodes_spec (key : String) (ns : List Node) (h : sortedNodes ns) :
    searchNodes key ns ≤ ns.length ∧
    (∀ k, k < searchNodes key ns → ¬ key ≤ (ns.getD k dfltNode).str) ∧
    (searchNodes key ns < ns.length → key ≤ (ns.getD (searchNodes key ns) dfltNode).str) := by
  have mono : ∀ a b, a ≤ b → b < ns.length →
      goStrLe key ((ns.getD a dfltNode).str) = true →
      goStrLe key ((ns.getD b dfltNode).str) = true := by
    intro a b hab hb hpa
    rw [goStrLe_iff] at hpa ⊢
    exact le_trans hpa (sortedNodes_mono ns h a b hab hb)
  obtain ⟨_, h2, h3, h4⟩ :=
    searchLoop_spec (fun i => goStrLe key ((ns.getD i dfltNode).str)) ns.length mono
      ns.length 0 ns.length (by omega) (by omega) (le_refl _) (fun k hk => absurd hk (by omega))
  unfold searchNodes sortSearch
  refine ⟨h2, fun k hk => ?_, fun hlt => ?_⟩
  · intro hcon
    rw [← goStrLe_iff] at hcon
    rw [h3 k hk] at hcon
    cases hcon
  · rw [← goStrLe_iff]
    exact h4 hlt

/-- On a sorted list containing a child with the probe key, `searchNodes`
lands on an equal-key child. -/
theorem searchNodes_found (key : String) (ns : List Node) (h : sortedNodes ns)
    (c : Node) (hc : c ∈ ns) (hk : c.str = key) :
    searchNodes key ns < ns.length ∧
    (ns.getD (searchNodes key ns) dfltNode).str = key := by
  obtain ⟨ic, hic, hceq⟩ := List.getElem_of_mem hc
  obtain ⟨hle, hlo, hhit⟩ := searchNodes_spec key ns h
  have hpic : key ≤ (ns.getD ic dfltNode).str := by
    rw [List.getD_eq_getElem ns dfltNode hic, hceq, hk]
  have hric : searchNodes key ns ≤ ic := by
    by_contra hcon
    exact (hlo ic (by omega)) hpic
  have hrlen : searchNodes key ns < ns.length := by omega
  refine ⟨hrlen, le_antisymm ?_ (hhit hrlen)⟩
  calc (ns.getD (searchNodes key ns) dfltNode).str
      ≤ (ns.getD ic dfltNode).str := sortedNodes_mono ns h _ _ hric hic
    _ = key := by rw [List.getD_eq_getElem ns dfltNode hic, hceq, hk]

/-- Inserting at the `searchNodes` position keeps the children sorted. -/
theorem appendNode_sorted (ns : List Node) (n : Node) (h : sortedNodes ns) :
    sortedNodes (appendNode ns n (searchNodes n.str ns)) := by
  obtain ⟨hle, hlo, hhit⟩ := searchNodes_spec n.str ns h
  set r := searchNodes n.str ns with hr
  have memTake : ∀ a ∈ ns.take r, a.str ≤ n.str := by
    intro a ha
    obtain ⟨ja, hja, haeq⟩ := List.getElem_of_mem ha
    have hjr : ja < r := by
      have := hja
      simp only [List.length_take] at this
      omega
    have hlt : ¬ n.str ≤ (ns.getD ja dfltNode).str := hlo ja hjr
    have hjn : ja < ns.length := by
      have := hja
      simp only [List.length_take] at this
      omega
    rw [List.getD_eq_getElem ns dfltNode hjn] at hlt
    rw [← haeq, List.getElem_take]
    exact le_of_lt (lt_of_not_le hlt)
  unfold appendNode
  by_cases hcase : r ≥ ns.length
  · rw [if_pos hcase]
    rw [sortedNodes, List.pairwise_append]
    refine ⟨h, List.pairwise_singleton _ _, ?_⟩
    intro a ha b hb
    rw [List.mem_singleton] at hb
    subst hb
    have : a ∈ ns.take r := by
      rw [List.take_of_length_le (by omega)]
      exact ha
    exact memTake a this
  · rw [if_neg hcase]
    push_neg at hcase
    have memDrop : ∀ b ∈ ns.drop r, n.str ≤ b.str := by
      intro b hb
      obtain ⟨jb, hjb, hbeq⟩ := List.getElem_of_mem hb
      have hlen : r + jb < ns.length := by
        have := hjb
        simp only [List.length_drop] at this
        omega
      have h1 : n.str ≤ (ns.getD r dfltNode).str := hhit hcase
      have h2 : (ns.getD r dfltNode).str ≤ (ns.getD (r + jb) dfltNode).str :=
        sortedNodes_mono ns h r (r + jb) (by omega) hlen
      rw [← hbeq, List.getElem_drop]
      rw [List.getD_eq_getElem ns dfltNode hlen] at h2
      exact le_trans h1 h2
    rw [sortedNodes, List.pairwise_append]
    refine ⟨List.Pairwise.sublist (List.take_sublist r ns) h, ?_, ?_⟩
    · rw [List.pairwise_cons]
      exact ⟨memDrop, List.Pairwise.sublist (List.drop_sublist r ns) h⟩
    · intro a ha b hb
      rcases List.mem_cons.mp hb with hb | hb
      · subst hb; exact memTake a ha
      · exact le_trans (memTake a ha) (memDrop b hb)

/-- Go `registerOption` rejects a duplicate key: with sorted children, if
some child (an option or a table) carries the new option's key, the
operation returns an error. -/
theorem registerOption_dup (c : CommentPair) (key : Token) (kd : TableType)
    (ns : List Node) (o : Node) (h : sortedNodes ns)
    (hall : ∀ y ∈ ns, y.str = o.str → y.isOpt ∨ y.isTbl)
    (hdup : ∃ x ∈ ns, x.str = o.str) :
    ∃ e, registerOption (.tbl c key kd ns) o = .error e := by
  obtain ⟨x, hx, hxk⟩ := hdup
  obtain ⟨hlt, hstr⟩ := searchNodes_found o.str ns h x hx hxk
  unfold registerOption
  dsimp only [Node.nodesOf]
  rw [dif_pos hlt]
  have hmem : ns.get ⟨searchNodes (Node.str o) ns, hlt⟩ ∈ ns := List.get_mem _ _ _
  have hstr2 : (ns.get ⟨searchNodes (Node.str o) ns, hlt⟩).str = o.str := by
    rw [List.get_eq_getElem, ← List.getD_eq_getElem ns dfltNode hlt]
    exact hstr
  have hkind := hall _ hmem hstr2
  cases hy : ns.get ⟨searchNodes (Node.str o) ns, hlt⟩ with
  | opt yc ykey yv =>
    rw [hy] at hstr2
    have h3 : ykey.literal = o.str := hstr2
    exact ⟨_, by dsimp only; rw [if_pos h3]⟩
  | lit yc ytok =>
    rw [hy] at hkind
    simp [Node.isOpt, Node.isTbl] at hkind
  | arr yc yp yns =>
    rw [hy] at hkind
    simp [Node.isOpt, Node.isTbl] at hkind
  | tbl yc ykey ykd yns =>
    rw [hy] at hstr2
    have h3 : ykey.literal = o.str := hstr2
    exact ⟨_, by dsimp only; rw [if_pos h3]⟩

/-- Go `registerOption` with a fresh key inserts at the binary-search
position and promotes an implicit table to regular. -/
theorem registerOption_fresh (c : CommentPair) (key : Token) (kd : TableType)
    (ns : List Node) (o : Node)
    (hmiss : ∀ y ∈ ns, y.str ≠ o.str) :
    registerOption (.tbl c key kd ns) o =
      .ok (.tbl c key (if kd = .implicit then .regular else kd)
        (appendNode ns o (searchNodes o.str ns))) := by
  unfold registerOption
  dsimp only [Node.nodesOf]
  by_cases hlt : searchNodes (Node.str o) ns < ns.length
  · rw [dif_pos hlt]
    have hmem : ns.get ⟨searchNodes (Node.str o) ns, hlt⟩ ∈ ns := List.get_mem _ _ _
    have hne := hmiss _ hmem
    cases hy : ns.get ⟨searchNodes (Node.str o) ns, hlt⟩ with
    | opt yc ykey yv =>
      rw [hy] at hne
      have h3 : ykey.literal ≠ o.str := hne
      dsimp only
      rw [if_neg h3]
      cases kd <;> rfl
    | lit yc ytok =>
      dsimp only
      cases kd <;> rfl
    | arr yc yp yns =>
      dsimp only
      cases kd <;> rfl
    | tbl yc ykey ykd yns =>
      rw [hy] at hne
      have h3 : ykey.literal ≠ o.str := hne
      dsimp only
      rw [if_neg h3]
      cases kd <;> rfl
  · rw [dif_neg hlt]
    cases kd <;> rfl

/-- Go `registerTable` rejects a duplicate key bound to an option or to a
non-implicit, non-array table. -/
theorem registerTable_dup (c : CommentPair) (key : Token) (kd : TableType)
    (ns : List Node) (n : Node) (h : sortedNodes ns)
    (hni : ¬ Node.isInline (.tbl c key kd ns))
    (hall : ∀ y ∈ ns, y.str = (n.keyOf).literal →
      y.isOpt ∨ (y.isTbl ∧ y.kindOf ≠ .implicit ∧ y.kindOf ≠ .array))
    (hdup : ∃ x ∈ ns, x.str = (n.keyOf).literal) :
    ∃ e, registerTable (.tbl c key kd ns) n = .error e := by
  obtain ⟨x, hx, hxk⟩ := hdup
  obtain ⟨hlt, hstr⟩ := searchNodes_found _ ns h x hx hxk
  unfold registerTable
  rw [if_neg hni]
  dsimp only [Node.nodesOf]
  rw [dif_pos hlt]
  have hmem : ns.get ⟨searchNodes ((n.keyOf).literal) ns, hlt⟩ ∈ ns := List.get_mem _ _ _
  have hstr2 : (ns.get ⟨searchNodes ((n.keyOf).literal) ns, hlt⟩).str = (n.keyOf).literal := by
    rw [List.get_eq_getElem, ← List.getD_eq_getElem ns dfltNode hlt]
    exact hstr
  have hkind := hall _ hmem hstr2
  cases hy : ns.get ⟨searchNodes ((n.keyOf).literal) ns, hlt⟩ with
  | opt yc ykey yv =>
    rw [hy] at hstr2
    have h3 : ykey.literal = (n.keyOf).literal := hstr2
    exact ⟨_, by dsimp only; rw [if_pos h3]⟩
  | lit yc ytok =>
    rw [hy] at hkind
    simp [Node.isOpt, Node.isTbl] at hkind
  | arr yc yp yns =>
    rw [hy] at hkind
    simp [Node.isOpt, Node.isTbl] at hkind
  | tbl yc ykey ykd yns =>
    rw [hy] at hstr2 hkind
    have h3 : ykey.literal = (n.keyOf).literal := hstr2
    rcases hkind with hopt | ⟨_, himp, harr⟩
    · simp [Node.isOpt] at hopt
    · have himp2 : ykd ≠ TableType.implicit := himp
      have harr2 : ykd ≠ TableType.array := harr
      exact ⟨_, by dsimp only; rw [if_neg (not_not_intro h3), if_neg himp2, if_neg harr2]⟩

/-- Go `registerTable` on a key bound to an implicit table silently merges:
it succeeds, replacing the child by `mergeTables n child`. -/
theorem registerTable_implicit (c : CommentPair) (key : Token) (kd : TableType)
    (ns : List Node) (n : Node) (h : sortedNodes ns)
    (hni : ¬ Node.isInline (.tbl c key kd ns))
    (hall : ∀ y ∈ ns, y.str = (n.keyOf).literal → y.isTbl ∧ y.kindOf = .implicit)
    (hdup : ∃ x ∈ ns, x.str = (n.keyOf).literal) :
    registerTable (.tbl c key kd ns) n =
      .ok (.tbl c key kd
          (ns.set (searchNodes ((n.keyOf).literal) ns)
            (mergeTables n (ns.getD (searchNodes ((n.keyOf).literal) ns) dfltNode))),
        [searchNodes ((n.keyOf).literal) ns]) := by
  obtain ⟨x, hx, hxk⟩ := hdup
  obtain ⟨hlt, hstr⟩ := searchNodes_found _ ns h x hx hxk
  unfold registerTable
  rw [if_neg hni]
  dsimp only [Node.nodesOf]
  rw [dif_pos hlt]
  have hmem : ns.get ⟨searchNodes ((n.keyOf).literal) ns, hlt⟩ ∈ ns := List.get_mem _ _ _
  have hgd : ns.get ⟨searchNodes ((n.keyOf).literal) ns, hlt⟩ =
      ns.getD (searchNodes ((n.keyOf).literal) ns) dfltNode := by
    rw [List.get_eq_getElem, List.getD_eq_getElem ns dfltNode hlt]
  have hstr2 : (ns.get ⟨searchNodes ((n.keyOf).literal) ns, hlt⟩).str = (n.keyOf).literal := by
    rw [hgd]; exact hstr
  have hkind := hall _ hmem hstr2
  cases hy : ns.get ⟨searchNodes ((n.keyOf).literal) ns, hlt⟩ with
  | opt yc ykey yv => rw [hy] at hkind; simp [Node.isTbl] at hkind
  | lit yc ytok => rw [hy] at hkind; simp [Node.isTbl] at hkind
  | arr yc yp yns => rw [hy] at hkind; simp [Node.isTbl] at hkind
  | tbl yc ykey ykd yns =>
    rw [hy] at hstr2 hkind hgd
    have h3 : ykey.literal = (n.keyOf).literal := hstr2
    have himp : ykd = TableType.implicit := hkind.2
    dsimp only
    rw [if_neg (not_not_intro h3), if_pos himp, ← hgd]
    rfl

/-- Go `registerTable` of an Item table on a key bound to an array table
appends the item as the array's last child. -/
theorem registerTable_array (c : CommentPair) (key : Token) (kd : TableType)
    (ns : List Node) (n : Node) (h : sortedNodes ns)
    (hni : ¬ Node.isInline (.tbl c key kd ns))
    (hitem : n.kindOf = .item)
    (hall : ∀ y ∈ ns, y.str = (n.keyOf).literal → y.isTbl ∧ y.kindOf = .array)
    (hdup : ∃ x ∈ ns, x.str = (n.keyOf).literal) :
    registerTable (.tbl c key kd ns) n =
      .ok (.tbl c key kd
          (ns.set (searchNodes ((n.keyOf).literal) ns)
            ((ns.getD (searchNodes ((n.keyOf).literal) ns) dfltNode).withNodes
              ((ns.getD (searchNodes ((n.keyOf).literal) ns) dfltNode).nodesOf ++ [n]))),
        [searchNodes ((n.keyOf).literal) ns,
          ((ns.getD (searchNodes ((n.keyOf).literal) ns) dfltNode).nodesOf).length]) := by
  obtain ⟨x, hx, hxk⟩ := hdup
  obtain ⟨hlt, hstr⟩ := searchNodes_found _ ns h x hx hxk
  unfold registerTable
  rw [if_neg hni]
  dsimp only [Node.nodesOf]
  rw [dif_pos hlt]
  have hmem : ns.get ⟨searchNodes ((n.keyOf).literal) ns, hlt⟩ ∈ ns := List.get_mem _ _ _
  have hgd : ns.get ⟨searchNodes ((n.keyOf).literal) ns, hlt⟩ =
      ns.getD (searchNodes ((n.keyOf).literal) ns) dfltNode := by
    rw [List.get_eq_getElem, List.getD_eq_getElem ns dfltNode hlt]
  have hstr2 : (ns.get ⟨searchNodes ((n.keyOf).literal) ns, hlt⟩).str = (n.keyOf).literal := by
    rw [hgd]; exact hstr
  have hkind := hall _ hmem hstr2
  cases hy : ns.get ⟨searchNodes ((n.keyOf).literal) ns, hlt⟩ with
  | opt yc ykey yv => rw [hy] at hkind; simp [Node.isTbl] at hkind
  | lit yc ytok => rw [hy] at hkind; simp [Node.isTbl] at hkind
  | arr yc yp yns => rw [hy] at hkind; simp [Node.isTbl] at hkind
  | tbl yc ykey ykd yns =>
    rw [hy] at hstr2 hkind hgd
    have h3 : ykey.literal = (n.keyOf).literal := hstr2
    have harr : ykd = TableType.array := hkind.2
    have himp : ykd ≠ TableType.implicit := by rw [harr]; intro hcon; cases hcon
    dsimp only
    rw [if_neg (not_not_intro h3), if_neg himp, if_pos harr,
      if_neg (not_not_intro hitem), ← hgd]
    rfl

/-- Go `registerTable` with a fresh key inserts at the binary-search
position, wrapping an Item into a new array table. -/
theorem registerTable_fresh (c : CommentPair) (key : Token) (kd : TableType)
    (ns : List Node) (n : Node)
    (hni : ¬ Node.isInline (.tbl c key kd ns))
    (hmiss : ∀ y ∈ ns, y.str ≠ (n.keyOf).literal) :
    registerTable (.tbl c key kd ns) n =
      (if n.kindOf = .item then
        .ok (.tbl c key kd
            (appendNode ns (.tbl {} n.keyOf .array [n]) (searchNodes ((n.keyOf).literal) ns)),
          [min (searchNodes ((n.keyOf).literal) ns) ns.length, 0])
      else
        .ok (.tbl c key kd (appendNode ns n (searchNodes ((n.keyOf).literal) ns)),
          [min (searchNodes ((n.keyOf).literal) ns) ns.length])) := by
  unfold registerTable
  rw [if_neg hni]
  dsimp only [Node.nodesOf]
  by_cases hlt : searchNodes ((n.keyOf).literal) ns < ns.length
  · rw [dif_pos hlt]
    have hmem : ns.get ⟨searchNodes ((n.keyOf).literal) ns, hlt⟩ ∈ ns := List.get_mem _ _ _
    have hne := hmiss _ hmem
    cases hy : ns.get ⟨searchNodes ((n.keyOf).literal) ns, hlt⟩ with
    | opt yc ykey yv =>
      rw [hy] at hne
      have h3 : ykey.literal ≠ (n.keyOf).literal := hne
      dsimp only
      rw [if_neg h3]
      by_cases hit : n.kindOf = .item
      · rw [if_pos hit, if_pos hit]; rfl
      · rw [if_neg hit, if_neg hit]; rfl
    | lit yc ytok =>
      dsimp only
      by_cases hit : n.kindOf = .item
      · rw [if_pos hit, if_pos hit]; rfl
      · rw [if_neg hit, if_neg hit]; rfl
    | arr yc yp yns =>
      dsimp only
      by_cases hit : n.kindOf = .item
      · rw [if_pos hit, if_pos hit]; rfl
      · rw [if_neg hit, if_neg hit]; rfl
    | tbl yc ykey ykd yns =>
      rw [hy] at hne
      have h3 : ykey.literal ≠ (n.keyOf).literal := hne
      dsimp only
      rw [if_pos h3]
      by_cases hit : n.kindOf = .item
      · rw [if_pos hit, if_pos hit]; rfl
      · rw [if_neg hit, if_neg hit]; rfl
  · rw [dif_neg hlt]
    by_cases hit : n.kindOf = .item
    · rw [if_pos hit, if_pos hit]; rfl
    · rw [if_neg hit, if_neg hit]; rfl

/-- Go `retrieveTable` on a key bound to an option errors with the
`": option"` message — the mechanism that seals inline tables. -/
theorem retrieveTable_opt (c : CommentPair) (key : Token) (kd : TableType)
    (ns : List Node) (tok : Token) (h : sortedNodes ns)
    (hall : ∀ y ∈ ns, y.str = tok.literal → y.isOpt)
    (hdup : ∃ x ∈ ns, x.str = tok.literal) :
    retrieveTable (.tbl c key kd ns) tok = .error (tok.literal ++ ": option") := by
  obtain ⟨x, hx, hxk⟩ := hdup
  obtain ⟨hlt, hstr⟩ := searchNodes_found _ ns h x hx hxk
  unfold retrieveTable
  dsimp only [Node.nodesOf]
  rw [dif_pos hlt]
  have hmem : ns.get ⟨searchNodes tok.literal ns, hlt⟩ ∈ ns := List.get_mem _ _ _
  have hstr2 : (ns.get ⟨searchNodes tok.literal ns, hlt⟩).str = tok.literal := by
    rw [List.get_eq_getElem, ← List.getD_eq_getElem ns dfltNode hlt]
    exact hstr
  have hkind := hall _ hmem hstr2
  cases hy : ns.get ⟨searchNodes tok.literal ns, hlt⟩ with
  | opt yc ykey yv =>
    rw [hy] at hstr2
    have h3 : ykey.literal = tok.literal := hstr2
    dsimp only
    rw [if_pos h3]
  | lit yc ytok => rw [hy] at hkind; simp [Node.isOpt] at hkind
  | arr yc yp yns => rw [hy] at hkind; simp [Node.isOpt] at hkind
  | tbl yc ykey ykd yns => rw [hy] at hkind; simp [Node.isOpt] at hkind

/-- Go `formatTable` (and hence `Format`) can never surface an error: its
own `formatOptions` error is answered with `return nil`, the
`formatHeader` error is never read, and child errors are, inductively,
never produced. -/
theorem formatTRec_table_no_error :
    ∀ fu, (∀ curr paths f r, formatTRec fu (.table curr paths) f = some r → r.2 = none) ∧
      (∀ curr paths f r, formatTRec fu (.after curr paths) f = some r → r.2 = none) ∧
      (∀ ns paths f r, formatTRec fu (.ftl ns paths) f = some r → r.2 = none) := by
  intro fu
  induction fu with
  | zero =>
    refine ⟨fun curr paths f r hr => ?_, fun curr paths f r hr => ?_,
      fun ns paths f r hr => ?_⟩ <;> simp [formatTRec] at hr
  | succ fu ih =>
    obtain ⟨ihT, ihA, ihL⟩ := ih
    refine ⟨fun curr paths f r hr => ?_, fun curr paths f r hr => ?_,
      fun ns paths f r hr => ?_⟩
    · simp only [formatTRec] at hr
      split at hr
      · rcases hFH : formatHeader f curr paths with ⟨f1, e1⟩
        rw [hFH] at hr
        dsimp only at hr
        split at hr
        · exact absurd hr (by simp)
        · rename_i f2 e2 heq
          injection hr with hr2
          subst hr2
          rfl
        · exact ihA _ _ _ _ hr
      · exact ihA _ _ _ _ hr
    · simp only [formatTRec] at hr
      split at hr
      · exact absurd hr (by simp)
      · rename_i f2 err heq
        injection hr with hr2
        subst hr2
        have h2 := ihL _ _ _ _ heq
        exact h2
    · cases ns with
      | nil =>
        simp only [formatTRec] at hr
        injection hr with hr2
        subst hr2
        rfl
      | cons next rest =>
        simp only [formatTRec] at hr
        split at hr
        · exact absurd hr (by simp)
        · rename_i f2 e heq
          exact absurd (ihT _ _ _ _ heq) (by simp)
        · exact ihL _ _ _ _ hr

/-- Wrapper form of the no-error invariant. -/
theorem formatTable_never_errors :
    ∀ fu f curr paths r, formatTable fu f curr paths = some r → r.2 = none :=
  fun fu f curr paths r hr => (formatTRec_table_no_error fu).1 curr paths f r hr

/-- C1: the claimed round-trip `Parse ∘ Format ∘ Parse ≡ Parse` fails.
`[a]` parses to a root with the table `a`, but the default formatter
emits nothing for a table without options, so re-parsing the output
yields a root with no children at all. -/
theorem claim_C1_format_drops_optionless_tables :
    childKeysAtPath (ParseDoc 100 "[a]\x0A") [] = some ["a"] ∧
    formatOfDoc 100 defaultFmt "[a]\x0A" = some (.ok "") ∧
    childKeysAtPath (ParseDoc 100 "") [] = some [] :=
  ⟨by rfl, by rfl, by rfl⟩

/-- C2 (counterexample): after `[[x]] … [[x]]` the array table `x` has
two direct children both keyed `x`, so a post-parse tree can contain a
table with two equal-keyed direct children. -/
theorem claim_C2_counterexample_array_children_share_key :
    childKeysAtPath (ParseDoc 100 "[[x]]\x0An = 1\x0A[[x]]\x0An = 2\x0A") [0] =
      some ["x", "x"] ∧
    kindAtPath (ParseDoc 100 "[[x]]\x0An = 1\x0A[[x]]\x0An = 2\x0A") [0] = some .array :=
  ⟨by rfl, by rfl⟩

/-- C2 (amended): on sorted children, `registerOption` errors on any
duplicate key; `registerTable` errors on a duplicate unless the existing
table is implicit (silently merged) or an array accepting an Item
(appended last); fresh keys go in at the binary-search slot, which keeps
the children sorted. -/
theorem claim_C2_amended_insertion_keeps_sorted_unique_except_arrays :
    (∀ c key kd ns o, sortedNodes ns →
      (∀ y ∈ ns, y.str = o.str → y.isOpt ∨ y.isTbl) →
      (∃ x ∈ ns, x.str = o.str) →
      ∃ e, registerOption (.tbl c key kd ns) o = .error e) ∧
    (∀ c key kd ns n, sortedNodes ns → ¬ Node.isInline (.tbl c key kd ns) →
      (∀ y ∈ ns, y.str = (n.keyOf).literal →
        y.isOpt ∨ (y.isTbl ∧ y.kindOf ≠ .implicit ∧ y.kindOf ≠ .array)) →
      (∃ x ∈ ns, x.str = (n.keyOf).literal) →
      ∃ e, registerTable (.tbl c key kd ns) n = .error e) ∧
    (∀ c key kd ns o, (∀ y ∈ ns, y.str ≠ o.str) →
      registerOption (.tbl c key kd ns) o =
        .ok (.tbl c key (if kd = .implicit then .regular else kd)
          (appendNode ns o (searchNodes o.str ns)))) ∧
    (∀ ns (o : Node), sortedNodes ns →
      sortedNodes (appendNode ns o (searchNodes o.str ns))) ∧
    (∀ c key kd ns n, sortedNodes ns → ¬ Node.isInline (.tbl c key kd ns) →
      (∀ y ∈ ns, y.str = (n.keyOf).literal → y.isTbl ∧ y.kindOf = .implicit) →
      (∃ x ∈ ns, x.str = (n.keyOf).literal) →
      ∃ res, registerTable (.tbl c key kd ns) n = .ok res) ∧
    (∀ c key kd ns n, sortedNodes ns → ¬ Node.isInline (.tbl c key kd ns) →
      n.kindOf = .item →
      (∀ y ∈ ns, y.str = (n.keyOf).literal → y.isTbl ∧ y.kindOf = .array) →
      (∃ x ∈ ns, x.str = (n.keyOf).literal) →
      ∃ res, registerTable (.tbl c key kd ns) n =
        .ok (.tbl c key kd
            (ns.set (searchNodes ((n.keyOf).literal) ns)
              ((ns.getD (searchNodes ((n.keyOf).literal) ns) dfltNode).withNodes
                ((ns.getD (searchNodes ((n.keyOf).literal) ns) dfltNode).nodesOf ++ [n]))),
          res)) :=
  ⟨registerOption_dup, registerTable_dup, registerOption_fresh, appendNode_sorted,
    fun c key kd ns n h hni hall hdup =>
      ⟨_, registerTable_implicit c key kd ns n h hni hall hdup⟩,
    fun c key kd ns n h hni hitem hall hdup =>
      ⟨_, registerTable_array c key kd ns n h hni hitem hall hdup⟩⟩

/-- Witness: each branch of the C2 amended theorem fires on a concrete
one-child table. -/
theorem claim_C2_amended_witness :
    (∃ e, registerOption
        (.tbl {} {} .regular [Node.opt {} { literal := "a" } (.lit {} {})])
        (.opt {} { literal := "a" } (.lit {} {})) = .error e) ∧
    (∃ e, registerTable
        (.tbl {} {} .regular [Node.opt {} { literal := "a" } (.lit {} {})])
        (.tbl {} { literal := "a" } .regular []) = .error e) ∧
    (registerOption (.tbl {} {} .implicit [])
        (.opt {} { literal := "b" } (.lit {} {})) =
      .ok (.tbl {} {} .regular
        (appendNode [] (.opt {} { literal := "b" } (.lit {} {})) (searchNodes "b" [])))) ∧
    sortedNodes (appendNode [Node.opt {} { literal := "a" } (.lit {} {})]
      (.opt {} { literal := "b" } (.lit {} {}))
      (searchNodes "b" [Node.opt {} { literal := "a" } (.lit {} {})])) ∧
    (∃ res, registerTable
        (.tbl {} {} .regular [Node.tbl {} { literal := "a" } .implicit []])
        (.tbl {} { literal := "a" } .item []) = .ok res) ∧
    (∃ res, registerTable
        (.tbl {} {} .regular
          [Node.tbl {} { literal := "a" } .array [Node.tbl {} { literal := "a" } .item []]])
        (.tbl {} { literal := "a" } .item []) = .ok res) := by
  obtain ⟨h1, h2, h3, h4, h5, h6⟩ := claim_C2_amended_insertion_keeps_sorted_unique_except_arrays
  refine ⟨?_, ?_, ?_, ?_, ?_, ?_⟩
  · exact h1 {} {} .regular _ _ (by simp [sortedNodes])
      (by intro y hy _; rw [List.mem_singleton] at hy; subst hy; left; rfl)
      ⟨Node.opt {} { literal := "a" } (.lit {} {}), by simp, rfl⟩
  · exact h2 {} {} .regular _ _ (by simp [sortedNodes]) (by simp [Node.isInline])
      (by intro y hy _; rw [List.mem_singleton] at hy; subst hy; left; rfl)
      ⟨Node.opt {} { literal := "a" } (.lit {} {}), by simp, rfl⟩
  · exact h3 {} {} .implicit _ _ (by intro y hy; simp at hy)
  · exact h4 _ _ (by simp [sortedNodes])
  · exact h5 {} {} .regular _ _ (by simp [sortedNodes]) (by simp [Node.isInline])
      (by intro y hy _; rw [List.mem_singleton] at hy; subst hy; exact ⟨rfl, rfl⟩)
      ⟨Node.tbl {} { literal := "a" } .implicit [], by simp, rfl⟩
  · obtain ⟨res, hres⟩ := h6 {} {} .regular
      [Node.tbl {} { literal := "a" } .array [Node.tbl {} { literal := "a" } .item []]]
      (.tbl {} { literal := "a" } .item []) (by simp [sortedNodes]) (by simp [Node.isInline])
      rfl
      (by intro y hy _; rw [List.mem_singleton] at hy; subst hy; exact ⟨rfl, rfl⟩)
      ⟨Node.tbl {} { literal := "a" } .array [Node.tbl {} { literal := "a" } .item []],
        by simp, rfl⟩
    exact ⟨_, hres⟩

/-- C3: when `[[a]]` meets a key previously created implicitly by a
dotted path, `registerTable` does not error — it silently merges, turning
`a` into a regular table; the concrete document parses successfully with
`a` of kind regular holding both the implicit child and the new option. -/
theorem claim_C3_array_header_on_implicit_silently_merges :
    (∀ c key kd ns n, sortedNodes ns → ¬ Node.isInline (.tbl c key kd ns) →
      (∀ y ∈ ns, y.str = (n.keyOf).literal → y.isTbl ∧ y.kindOf = .implicit) →
      (∃ x ∈ ns, x.str = (n.keyOf).literal) →
      ∃ res, registerTable (.tbl c key kd ns) n = .ok res) ∧
    errOf (ParseDoc 150 "a.b.x = 1\x0A[[a]]\x0Ay = 2\x0A") = none ∧
    childKeysAtPath (ParseDoc 150 "a.b.x = 1\x0A[[a]]\x0Ay = 2\x0A") [] = some ["a"] ∧
    kindAtPath (ParseDoc 150 "a.b.x = 1\x0A[[a]]\x0Ay = 2\x0A") [0] = some .regular ∧
    childKeysAtPath (ParseDoc 150 "a.b.x = 1\x0A[[a]]\x0Ay = 2\x0A") [0] = some ["b", "y"] :=
  ⟨fun c key kd ns n h hni hall hdup =>
      ⟨_, registerTable_implicit c key kd ns n h hni hall hdup⟩,
    by rfl, by rfl, by rfl, by rfl⟩

/-- Witness: the C3 merge branch fires on a concrete implicit child. -/
theorem claim_C3_witness :
    ∃ res, registerTable
        (.tbl {} {} .regular [Node.tbl {} { literal := "w" } .implicit []])
        (.tbl {} { literal := "w" } .item []) = .ok res :=
  (claim_C3_array_header_on_implicit_silently_merges).1 {} {} .regular _ _
    (by simp [sortedNodes]) (by simp [Node.isInline])
    (by intro y hy _; rw [List.mem_singleton] at hy; subst hy; exact ⟨rfl, rfl⟩)
    ⟨Node.tbl {} { literal := "w" } .implicit [], by simp, rfl⟩

/-- C4: a key bound to an option (inline tables are stored as option
values) seals the path: `retrieveTable` errors with `": option"`,
`registerTable` errors, and the three concrete documents extending the
inline table through a dotted header, a dotted key and an array header
all make Parse fail. -/
theorem claim_C4_inline_tables_are_sealed :
    (∀ c key kd ns tok, sortedNodes ns →
      (∀ y ∈ ns, y.str = tok.literal → y.isOpt) →
      (∃ x ∈ ns, x.str = tok.literal) →
      retrieveTable (.tbl c key kd ns) tok = .error (tok.literal ++ ": option")) ∧
    (∀ c key kd ns n, sortedNodes ns → ¬ Node.isInline (.tbl c key kd ns) →
      (∀ y ∈ ns, y.str = (n.keyOf).literal → y.isOpt) →
      (∃ x ∈ ns, x.str = (n.keyOf).literal) →
      ∃ e, registerTable (.tbl c key kd ns) n = .error e) ∧
    errOf (ParseDoc 150 "t = { a = 1 }\x0A[t.b]\x0Ac = 2\x0A") = some "t: option" ∧
    errOf (ParseDoc 150 "t = { a = 1 }\x0At.c = 2\x0A") = some "t: option" ∧
    errOf (ParseDoc 150 "t = { a = 1 }\x0A[[t]]\x0A") = some "t: option already exists" :=
  ⟨retrieveTable_opt,
    fun c key kd ns n h hni hall hdup =>
      registerTable_dup c key kd ns n h hni
        (fun y hy hstr => Or.inl (hall y hy hstr)) hdup,
    by rfl, by rfl, by rfl⟩

/-- Witness: the C4 sealing branches fire on a concrete option child. -/
theorem claim_C4_witness :
    (retrieveTable (.tbl {} {} .regular [Node.opt {} { literal := "t" } (.lit {} {})])
        { literal := "t" } = .error ("t" ++ ": option")) ∧
    (∃ e, registerTable (.tbl {} {} .regular [Node.opt {} { literal := "t" } (.lit {} {})])
        (.tbl {} { literal := "t" } .regular []) = .error e) := by
  obtain ⟨h1, h2, _, _, _⟩ := claim_C4_inline_tables_are_sealed
  refine ⟨?_, ?_⟩
  · exact h1 {} {} .regular _ _ (by simp [sortedNodes])
      (by intro y hy _; rw [List.mem_singleton] at hy; subst hy; rfl)
      ⟨Node.opt {} { literal := "t" } (.lit {} {}), by simp, rfl⟩
  · exact h2 {} {} .regular _ _ (by simp [sortedNodes]) (by simp [Node.isInline])
      (by intro y hy _; rw [List.mem_singleton] at hy; subst hy; rfl)
      ⟨Node.opt {} { literal := "t" } (.lit {} {}), by simp, rfl⟩

/-- C5: errors are not all surfaced — `formatTable` never returns one at
all (its `formatOptions` error is swallowed by `return nil`), while on a
concrete document whose integer overflows the `WithNumber` conversion,
`formatOptions` does error and `Format` still reports success with the
truncated output `"x = "`. -/
theorem claim_C5_format_swallows_option_errors :
    (∀ fu f curr paths r, formatTable fu f curr paths = some r → r.2 = none) ∧
    formatOptionsErrOfDoc 150 hexFmt "x = 99999999999999999999\x0A" =
      some (some "99999999999999999999: value out of range") ∧
    formatOfDoc 150 hexFmt "x = 99999999999999999999\x0A" = some (.ok "x = ") :=
  ⟨formatTable_never_errors, by rfl, by rfl⟩

/-- Witness: the C5 no-error component applied to a concrete run of
`formatTable`. -/
theorem claim_C5_witness :
    ∃ r, formatTable 3 defaultFmt (.tbl {} {} .regular []) [] = some r ∧ r.2 = none :=
  ⟨(defaultFmt, none), rfl, (claim_C5_format_swallows_option_errors).1 3 defaultFmt
    (.tbl {} {} .regular []) [] (defaultFmt, none) rfl⟩

/-- C7: scanning `x = "\u00e9"` yields a String token whose literal is
`"I"` (U+0049), not the denoted U+00E9, because `scanUnicodeEscape`
forgets to add 10 for the `a-f`/`A-F` digit cases; and the `\U` escape
never succeeds: the shift offset underflows and Go panics (modelled as
`none` for every fuel at the concrete escape state). -/
theorem claim_C7_unicode_escape_mangled_and_panics :
    tokensOfDoc 150 "x = \"\\u00e9\"\x0A" =
      some [(TokIdent, "x"), (TokEqual, ""), (TokString, "I"), (TokNL, "")] ∧
    "I" ≠ "é" ∧
    (∀ f multi, scanEscape f escPanicState multi = none) ∧
    scanTokens 200 "x = \"\\U000000e9\"\x0A" = none :=
  ⟨by rfl, by decide, fun f multi => by cases multi <;> rfl, by rfl⟩

end Toml
